import Mathlib

/-!
Verified model of the gophersweeper library (src/lib.rs).

The source is a Minesweeper-style grid engine.  This file gives a shallow
embedding of its two components:

* the configuration component (`FieldSize`, `Difficulty`, `GameConfig`,
  `GameConfig.size`, `GameConfig.gophers`), including an exact model of the
  IEEE-754 single-precision (f32) arithmetic used by `gophers`;
* the grid engine (`Cell`, `GopherSweeper`, construction with randomized
  placement, `toggle_flag`, `try_expose_cell`, the recursive flood fill
  `expose_recursively` and the neighbour enumeration
  `surrounding_cells_coords`).

Machine floats are modelled exactly: every finite nonnegative f32 value is an
integer multiple of 2 ^ (-149), so an f32 value v is represented by the
natural number v * 2 ^ 149.  Rounding a nonnegative rational to f32 is
round-to-nearest, ties to even, implemented over naturals.  The overflow
range (values at or above 2 ^ 128) and the saturation of float-to-usize
casts above usize::MAX are outside the range exercised by any claim and are
not modelled.  Randomness is modelled as an injected stream of coordinate
draws, each in range, matching the contract of rng.gen_range.
-/

/-- Nearest-integer division of num by den with ties broken to the even
quotient; this is the rounding step of IEEE round-to-nearest-even. -/
def roundHalfEvenDiv (num den : ℕ) : ℕ :=
  let q := num / den
  let r := num % den
  if 2 * r < den then q
  else if den < 2 * r then q + 1
  else if q % 2 = 0 then q else q + 1

/-- Scan of f32 exponents, from 127 down to -126 and then the subnormal
range.  The argument k + 1 stands for exponent e = k - 126; the input is the
exact nonnegative rational num / den and the output is the nearest f32,
scaled by 2 ^ 149.  Mantissas are rounded to nearest, ties to even. -/
def f32ofRatAux : ℕ → ℕ → ℕ → ℕ
  | 0, num, den => roundHalfEvenDiv (num * 2 ^ 149) den
  | k + 1, num, den =>
    if den * 2 ^ k ≤ num * 2 ^ 126 then
      (if k ≤ 149 then roundHalfEvenDiv (num * 2 ^ (149 - k)) den
       else roundHalfEvenDiv num (den * 2 ^ (k - 149))) * 2 ^ k
    else f32ofRatAux k num den

/-- Round the nonnegative rational num / den to the nearest f32 value,
represented as a natural number scaled by 2 ^ 149. -/
def f32ofRat (num den : ℕ) : ℕ := f32ofRatAux 254 num den

/-- Product of two f32 values (each scaled by 2 ^ 149): the exact product is
rounded back to f32, as IEEE multiplication does. -/
def f32mul (a b : ℕ) : ℕ := f32ofRat (a * b) (2 ^ 298)

/-- The f32 literal 0.1 of the source (const EASY), i.e. the f32 nearest
1/10, scaled by 2 ^ 149. -/
def EASY : ℕ := f32ofRat 1 10

/-- The f32 literal 0.15 of the source (const NORMAL), scaled by 2 ^ 149. -/
def NORMAL : ℕ := f32ofRat 15 100

/-- The f32 literal 0.2 of the source (const HARD), scaled by 2 ^ 149. -/
def HARD : ℕ := f32ofRat 2 10

/-- const SMALL: (usize, usize) = (10, 8). -/
def SMALL : ℕ × ℕ := (10, 8)

/-- const MEDIUM: (usize, usize) = (18, 12). -/
def MEDIUM : ℕ × ℕ := (18, 12)

/-- const BIG: (usize, usize) = (24, 20). -/
def BIG : ℕ × ℕ := (24, 20)

/-- enum FieldSize from the source; Custom carries width and height. -/
inductive FieldSize where
  | Small : FieldSize
  | Medium : FieldSize
  | Big : FieldSize
  | Custom : (width : ℕ) → (height : ℕ) → FieldSize
deriving DecidableEq

/-- enum Difficulty from the source; Custom carries the f32 field
gophers_percentage, represented exactly as a natural scaled by 2 ^ 149
(nonnegative finite f32 values only, which covers every claim). -/
inductive Difficulty where
  | Easy : Difficulty
  | Normal : Difficulty
  | Hard : Difficulty
  | Custom : (gophers_percentage : ℕ) → Difficulty
deriving DecidableEq

/-- struct GameConfig from the source. -/
structure GameConfig where
  field_size : FieldSize
  difficulty : Difficulty
deriving DecidableEq

/-- GameConfig::size from the source. -/
def GameConfig.size (c : GameConfig) : ℕ × ℕ :=
  match c.field_size with
  | .Small => SMALL
  | .Medium => MEDIUM
  | .Big => BIG
  | .Custom width height => (width, height)

/-- GameConfig::gophers from the source: the difficulty constant (an f32)
times (width * height) as f32, the product rounded as f32 multiplication
rounds, then .ceil() as usize.  On a value scaled by 2 ^ 149 the final ceil
and cast amount to a ceiling division by 2 ^ 149. -/
def GameConfig.gophers (c : GameConfig) : ℕ :=
  let wh := c.size
  let d : ℕ :=
    match c.difficulty with
    | .Easy => EASY
    | .Normal => NORMAL
    | .Hard => HARD
    | .Custom gophers_percentage => gophers_percentage
  (f32mul d (f32ofRat (wh.1 * wh.2) 1) + (2 ^ 149 - 1)) / 2 ^ 149

/-- Density of a difficulty selection as stated by the spec: the exact
rational 0.1, 0.15 or 0.2 for the presets, or the value of the custom
percentage (an f32, hence the stored scaled natural divided by 2 ^ 149).
Spec-side definition, written from the words of the claims. -/
def specDensity (d : Difficulty) : ℚ :=
  match d with
  | .Easy => 1 / 10
  | .Normal => 15 / 100
  | .Hard => 2 / 10
  | .Custom gophers_percentage => (gophers_percentage : ℚ) / 2 ^ 149

/-- Item count as the spec words it: the mathematical ceiling of density
times width times height.  Spec-side definition for claim C1. -/
def specItemCount (c : GameConfig) : ℕ :=
  (⌈specDensity c.difficulty * ((c.size.1 * c.size.2 : ℕ) : ℚ)⌉).toNat

/-- struct Cell from the source.  surrounding_gophers is u8 in the source;
it is modelled as a natural, faithful because it is incremented at most once
per distinct planted neighbour, hence stays at most 8. -/
structure Cell where
  is_exposed : Bool
  is_flagged : Bool
  has_gopher : Bool
  surrounding_gophers : ℕ
deriving DecidableEq

/-- derive(Default) on Cell: all flags false, count 0. -/
instance : Inhabited Cell := ⟨⟨false, false, false, 0⟩⟩

/-- struct GopherSweeper from the source: the configuration, the count of
remaining safe cells, and the row-major cell matrix (field[y][x]). -/
structure GopherSweeper where
  config : GameConfig
  remaining_cells : ℕ
  field : List (List Cell)
deriving DecidableEq

/-- enum ExposeResult from the source. -/
inductive ExposeResult where
  | Exposed : ExposeResult
  | WasAlreadyExposed : ExposeResult
  | IsFlagged : ExposeResult
  | HasGopher : ExposeResult
  | Win : ExposeResult
deriving DecidableEq

/-- enum ToggleFlagResult from the source. -/
inductive ToggleFlagResult where
  | Enabled : ToggleFlagResult
  | Disabled : ToggleFlagResult
  | CellWasExposed : ToggleFlagResult
deriving DecidableEq

/-- The checked access self.field[y][x]: none models the out-of-range panic
of Vec indexing. -/
def getCell? (f : List (List Cell)) (x y : ℕ) : Option Cell :=
  f[y]?.bind fun row => row[x]?

/-- Total variant of field[y][x] used inside the flood fill, where every
access is at in-bounds coordinates (the targets come from
surrounding_cells_coords); out of bounds it yields the default cell. -/
def getCell (f : List (List Cell)) (x y : ℕ) : Cell :=
  (getCell? f x y).getD default

/-- Write of self.field[y][x] (in-bounds in every use, like the source). -/
def setCell (f : List (List Cell)) (x y : ℕ) (c : Cell) : List (List Cell) :=
  f.set y ((f.getD y []).set x c)

/-- GopherSweeper::surrounding_cells_coords from the source: the up to 8
grid-bounded neighbour coordinates of (x, y), pushed in the fixed source
order (left, up, right, down, then the four diagonals). -/
def surroundingCoords (w h x y : ℕ) : List (ℕ × ℕ) :=
  (if x > 0 then [(x - 1, y)] else []) ++
  (if y > 0 then [(x, y - 1)] else []) ++
  (if x + 1 < w then [(x + 1, y)] else []) ++
  (if y + 1 < h then [(x, y + 1)] else []) ++
  (if x > 0 ∧ y > 0 then [(x - 1, y - 1)] else []) ++
  (if x > 0 ∧ y + 1 < h then [(x - 1, y + 1)] else []) ++
  (if x + 1 < w ∧ y > 0 then [(x + 1, y - 1)] else []) ++
  (if x + 1 < w ∧ y + 1 < h then [(x + 1, y + 1)] else [])

/-- Method wrapper: the source method calls self.config.size() each time. -/
def GopherSweeper.surrounding_cells_coords (s : GopherSweeper) (x y : ℕ) :
    List (ℕ × ℕ) :=
  surroundingCoords s.config.size.1 s.config.size.2 x y

/-- GopherSweeper::toggle_flag from the source. none models the indexing
panic at out-of-range coordinates. -/
def GopherSweeper.toggle_flag (s : GopherSweeper) (x y : ℕ) :
    Option (ToggleFlagResult × GopherSweeper) :=
  match getCell? s.field x y with
  | none => none
  | some cell =>
    if cell.is_exposed then some (.CellWasExposed, s)
    else
      let c := { cell with is_flagged := !cell.is_flagged }
      let s' := { s with field := setCell s.field x y c }
      some (if c.is_flagged then .Enabled else .Disabled, s')

/-- The first two lines of expose_recursively: mark the cell exposed and
decrement remaining_cells (usize subtraction; never below zero in reachable
states, by the remaining-cells invariant proved below). -/
def exposeStep (s : GopherSweeper) (x y : ℕ) : GopherSweeper :=
  { s with
    field := setCell s.field x y { getCell s.field x y with is_exposed := true }
    remaining_cells := s.remaining_cells - 1 }

/-- The for-loop body of expose_recursively over the neighbour list: skip
already exposed neighbours, recurse (through f) on the rest, threading the
state left to right exactly as the source loop mutates self. -/
def exposeGo (f : GopherSweeper → ℕ → ℕ → Option GopherSweeper) :
    GopherSweeper → List (ℕ × ℕ) → Option GopherSweeper
  | s, [] => some s
  | s, (x, y) :: rest =>
    if (getCell s.field x y).is_exposed then exposeGo f s rest
    else
      match f s x y with
      | none => none
      | some s1 => exposeGo f s1 rest

/-- GopherSweeper::expose_recursively from the source, with an explicit fuel
bounding the number of recursive calls; none means the fuel ran out.  The
termination theorem below (claim C8) shows fuel equal to the number of
unexposed cells always suffices, so the Rust recursion, which has no fuel,
terminates. -/
def expose_recursively : ℕ → GopherSweeper → ℕ → ℕ → Option GopherSweeper
  | 0, _, _, _ => none
  | fuel + 1, s, x, y =>
    if (getCell s.field x y).surrounding_gophers = 0 then
      exposeGo (expose_recursively fuel) (exposeStep s x y)
        ((exposeStep s x y).surrounding_cells_coords x y)
    else some (exposeStep s x y)

/-- GopherSweeper::try_expose_cell from the source.  none models either the
indexing panic at out-of-range coordinates or exhaustion of the recursion
fuel (set to width * height, sufficient in every well-formed state). -/
def GopherSweeper.try_expose_cell (s : GopherSweeper) (x y : ℕ) :
    Option (ExposeResult × GopherSweeper) :=
  match getCell? s.field x y with
  | none => none
  | some cell =>
    if cell.is_exposed then some (.WasAlreadyExposed, s)
    else if cell.is_flagged then some (.IsFlagged, s)
    else if cell.has_gopher then some (.HasGopher, s)
    else
      match expose_recursively (s.config.size.1 * s.config.size.2) s x y with
      | none => none
      | some s' =>
        if s'.remaining_cells = 0 then some (.Win, s') else some (.Exposed, s')

/-- GopherSweeper::cell from the source: read-only access, panics (none)
out of range. -/
def GopherSweeper.cell (s : GopherSweeper) (x y : ℕ) : Option Cell :=
  getCell? s.field x y

/-- The increment self.field[y][x].surrounding_gophers += 1 of the source. -/
def bumpCell (c : Cell) : Cell :=
  { c with surrounding_gophers := c.surrounding_gophers + 1 }

/-- The for-loop of GopherSweeper::new over the surrounding coordinates of a
fresh gopher, incrementing each surrounding count in turn. -/
def bumpFold (f : List (List Cell)) (l : List (ℕ × ℕ)) : List (List Cell) :=
  l.foldl (fun f p => setCell f p.1 p.2 (bumpCell (getCell f p.1 p.2))) f

/-- Planting one gopher at the fresh coordinates d: set has_gopher there and
increment surrounding_gophers on each surrounding cell, in source order. -/
def plantGopher (s : GopherSweeper) (d : ℕ × ℕ) : GopherSweeper :=
  let f1 := setCell s.field d.1 d.2 { getCell s.field d.1 d.2 with has_gopher := true }
  { s with
    field := bumpFold f1 (surroundingCoords s.config.size.1 s.config.size.2 d.1 d.2) }

/-- The while loop of GopherSweeper::new: draw coordinates until the set of
planted gophers reaches the goal.  The random generator is modelled as the
list draws of successive gen_range results; the HashSet of chosen
coordinates is modelled as the duplicate-free list planted.  none means the
draw stream was exhausted before the goal was reached (a run of the source
loop that has not yet terminated). -/
def plantLoop (goal : ℕ) : GopherSweeper → List (ℕ × ℕ) → List (ℕ × ℕ) →
    Option GopherSweeper
  | s, planted, [] => if planted.length < goal then none else some s
  | s, planted, d :: rest =>
    if planted.length < goal then
      (if d ∈ planted then plantLoop goal s planted rest
       else plantLoop goal (plantGopher s d) (d :: planted) rest)
    else some s

/-- GopherSweeper::new from the source: build the default field, set
remaining_cells to width * height - gophers, then run the planting loop on
the injected draw stream. -/
def GopherSweeper.new (config : GameConfig) (draws : List (ℕ × ℕ)) :
    Option GopherSweeper :=
  let wh := config.size
  let g := config.gophers
  plantLoop g
    { config := config
      remaining_cells := wh.1 * wh.2 - g
      field := List.replicate wh.2 (List.replicate wh.1 default) }
    [] draws

/-- Grid-bounded 8-adjacency as worded by the spec: the coordinates differ,
and each component differs by at most one (horizontal, vertical or diagonal
neighbours). -/
def adjacent (a b : ℕ × ℕ) : Prop :=
  a ≠ b ∧ a.1 ≤ b.1 + 1 ∧ b.1 ≤ a.1 + 1 ∧ a.2 ≤ b.2 + 1 ∧ b.2 ≤ a.2 + 1

instance (a b : ℕ × ℕ) : Decidable (adjacent a b) := by
  unfold adjacent; infer_instance

theorem adjacent_symm {a b : ℕ × ℕ} (hab : adjacent a b) : adjacent b a := by
  obtain ⟨a1, a2⟩ := a
  obtain ⟨b1, b2⟩ := b
  simp only [adjacent, ne_eq, Prod.mk.injEq] at hab ⊢
  omega

theorem mem_guard {α} {c : Prop} [Decidable c] {a p : α} :
    (p ∈ if c then [a] else []) ↔ c ∧ p = a := by
  by_cases hc : c <;> simp [hc]

set_option maxHeartbeats 1000000 in
/-- Membership in the neighbour list of the source is exactly grid-bounded
adjacency, for an in-bounds centre. -/
theorem mem_surroundingCoords {w h x y : ℕ} (hx : x < w) (hy : y < h)
    (p : ℕ × ℕ) :
    p ∈ surroundingCoords w h x y ↔ p.1 < w ∧ p.2 < h ∧ adjacent (x, y) p := by
  obtain ⟨a, b⟩ := p
  simp only [surroundingCoords, List.mem_append, mem_guard, adjacent, ne_eq,
    Prod.mk.injEq]
  omega

set_option maxHeartbeats 1000000 in
/-- The neighbour list never repeats a coordinate. -/
theorem nodup_surroundingCoords (w h x y : ℕ) :
    (surroundingCoords w h x y).Nodup := by
  by_cases h1 : 0 < x <;> by_cases h2 : 0 < y <;>
    by_cases h3 : x + 1 < w <;> by_cases h4 : y + 1 < h <;>
    simp only [surroundingCoords, h1, h2, h3, h4, if_true, if_false,
      and_self, and_true, true_and, and_false, false_and, if_pos, if_neg,
      not_false_iff, List.nil_append, List.append_nil, List.cons_append,
      List.singleton_append, List.nodup_cons, List.nodup_nil, and_true,
      List.mem_append, List.mem_cons, List.not_mem_nil, List.mem_singleton,
      or_false, false_or, Prod.mk.injEq, not_or] <;>
    norm_num <;> omega


/-- Field well-formedness: exactly h rows of exactly w cells each, which is
how GopherSweeper::new builds the matrix. -/
def fieldWF (w h : ℕ) (f : List (List Cell)) : Prop :=
  f.length = h ∧ ∀ row ∈ f, row.length = w

/-- A well-formed game state: the matrix has the configured dimensions. -/
def Wellformed (s : GopherSweeper) : Prop :=
  fieldWF s.config.size.1 s.config.size.2 s.field

theorem getCell?_eq_some_of_lt {w h : ℕ} {f : List (List Cell)}
    (hf : fieldWF w h f) {x y : ℕ} (hx : x < w) (hy : y < h) :
    getCell? f x y = some (getCell f x y) := by
  obtain ⟨hlen, hrows⟩ := hf
  have hy' : y < f.length := by omega
  have hrow : f[y]? = some (f[y]) := List.getElem?_eq_getElem hy'
  have hw : (f[y]).length = w := hrows _ (List.getElem_mem hy')
  have hx' : x < (f[y]).length := by omega
  simp [getCell, getCell?, hrow, List.getElem?_eq_getElem hx']

theorem getCell?_eq_none_of_oob {w h : ℕ} {f : List (List Cell)}
    (hf : fieldWF w h f) {x y : ℕ} (hxy : ¬(x < w ∧ y < h)) :
    getCell? f x y = none := by
  obtain ⟨hlen, hrows⟩ := hf
  unfold getCell?
  rcases Nat.lt_or_ge y f.length with hy' | hy'
  · have hrow : f[y]? = some (f[y]) := List.getElem?_eq_getElem hy'
    have hw : (f[y]).length = w := hrows _ (List.getElem_mem hy')
    have hx : (f[y]).length ≤ x := by omega
    simp [hrow, List.getElem?_eq_none hx]
  · simp [List.getElem?_eq_none hy']

theorem getCell?_isSome_iff {w h : ℕ} {f : List (List Cell)}
    (hf : fieldWF w h f) (x y : ℕ) :
    (getCell? f x y).isSome ↔ (x < w ∧ y < h) := by
  constructor
  · intro hs
    by_contra hc
    rw [getCell?_eq_none_of_oob hf hc] at hs
    cases hs
  · intro hc
    rw [getCell?_eq_some_of_lt hf hc.1 hc.2]
    rfl

theorem fieldWF_setCell {w h : ℕ} {f : List (List Cell)}
    (hf : fieldWF w h f) (x y : ℕ) (c : Cell) :
    fieldWF w h (setCell f x y c) := by
  rcases Nat.lt_or_ge y f.length with hy' | hy'
  · refine ⟨by simp [setCell, hf.1], ?_⟩
    intro row hrow
    rcases List.mem_or_eq_of_mem_set hrow with hmem | heq
    · exact hf.2 row hmem
    · subst heq
      rw [List.length_set]
      have hgd : f.getD y [] = f[y] := by
        simp [List.getD_eq_getElem?_getD, List.getElem?_eq_getElem hy']
      rw [hgd]
      exact hf.2 _ (List.getElem_mem hy')
  · have hset : setCell f x y c = f := by
      unfold setCell
      exact List.set_eq_of_length_le hy'
    rw [hset]
    exact hf

theorem getCell?_setCell_self {w h : ℕ} {f : List (List Cell)}
    (hf : fieldWF w h f) {x y : ℕ} (hx : x < w) (hy : y < h) (c : Cell) :
    getCell? (setCell f x y c) x y = some c := by
  obtain ⟨hlen, hrows⟩ := hf
  have hy' : y < f.length := by omega
  have hgd : f.getD y [] = f[y] := by
    simp [List.getD_eq_getElem?_getD, List.getElem?_eq_getElem hy']
  have hw : (f[y]).length = w := hrows _ (List.getElem_mem hy')
  unfold getCell? setCell
  rw [hgd, List.getElem?_set_eq_of_lt _ hy']
  simp [List.getElem?_set_eq_of_lt _ (show x < (f[y]).length by omega)]

theorem getCell?_setCell_ne {f : List (List Cell)} {x y a b : ℕ} (c : Cell)
    (hne : ¬(a = x ∧ b = y)) :
    getCell? (setCell f x y c) a b = getCell? f a b := by
  unfold getCell? setCell
  by_cases hby : b = y
  · subst hby
    have hax : a ≠ x := fun hax => hne ⟨hax, rfl⟩
    rcases Nat.lt_or_ge b f.length with hb' | hb'
    · have hgd : f.getD b [] = f[b] := by
        simp [List.getD_eq_getElem?_getD, List.getElem?_eq_getElem hb']
      rw [hgd, List.getElem?_set_eq_of_lt _ hb', List.getElem?_eq_getElem hb']
      simp [List.getElem?_set_ne (fun hh => hax hh.symm)]
    · rw [List.set_eq_of_length_le hb']
  · rw [List.getElem?_set_ne (fun hh => hby hh.symm)]

theorem getCell_setCell_self {w h : ℕ} {f : List (List Cell)}
    (hf : fieldWF w h f) {x y : ℕ} (hx : x < w) (hy : y < h) (c : Cell) :
    getCell (setCell f x y c) x y = c := by
  simp [getCell, getCell?_setCell_self hf hx hy c]

theorem getCell_setCell_ne {f : List (List Cell)} {x y a b : ℕ} (c : Cell)
    (hne : ¬(a = x ∧ b = y)) :
    getCell (setCell f x y c) a b = getCell f a b := by
  simp [getCell, getCell?_setCell_ne c hne]

/-- Count of cells of the whole matrix satisfying p. -/
def countP2 (p : Cell → Bool) (f : List (List Cell)) : ℕ :=
  (f.map fun row => row.countP p).sum

theorem countP_set_balance (p : Cell → Bool) :
    ∀ (l : List Cell) (i : ℕ) (c d : Cell), l[i]? = some d →
      (l.set i c).countP p + (if p d then 1 else 0)
        = l.countP p + (if p c then 1 else 0) := by
  intro l
  induction l with
  | nil => intro i c d hd; cases hd
  | cons a tl ih =>
    intro i c d hd
    cases i with
    | zero =>
      simp only [List.getElem?_cons_zero, Option.some.injEq] at hd
      subst hd
      simp only [List.set_cons_zero, List.countP_cons]
      split_ifs <;> omega
    | succ j =>
      simp only [List.getElem?_cons_succ] at hd
      simp only [List.set_cons_succ, List.countP_cons]
      have := ih j c d hd
      split_ifs at this ⊢ <;> omega

theorem sum_map_set_balance {α : Type} (g : α → ℕ) :
    ∀ (l : List α) (i : ℕ) (a r : α), l[i]? = some r →
      ((l.set i a).map g).sum + g r = (l.map g).sum + g a := by
  intro l
  induction l with
  | nil => intro i a r hr; cases hr
  | cons b tl ih =>
    intro i a r hr
    cases i with
    | zero =>
      simp only [List.getElem?_cons_zero, Option.some.injEq] at hr
      subst hr
      simp only [List.set_cons_zero, List.map_cons, List.sum_cons]
      omega
    | succ j =>
      simp only [List.getElem?_cons_succ] at hr
      simp only [List.set_cons_succ, List.map_cons, List.sum_cons]
      have := ih j a r hr
      omega

theorem countP2_setCell (p : Cell → Bool) {w h : ℕ} {f : List (List Cell)}
    (hf : fieldWF w h f) {x y : ℕ} (hx : x < w) (hy : y < h) (c : Cell) :
    countP2 p (setCell f x y c) + (if p (getCell f x y) then 1 else 0)
      = countP2 p f + (if p c then 1 else 0) := by
  obtain ⟨hlen, hrows⟩ := hf
  have hy' : y < f.length := by omega
  have hrow : f[y]? = some (f[y]) := List.getElem?_eq_getElem hy'
  have hgd : f.getD y [] = f[y] := by
    simp [List.getD_eq_getElem?_getD, hrow]
  have hw : (f[y]).length = w := hrows _ (List.getElem_mem hy')
  have hx' : x < (f[y]).length := by omega
  have hcell : (f[y])[x]? = some (getCell f x y) := by
    simp [getCell, getCell?, hrow, List.getElem?_eq_getElem hx']
  unfold countP2 setCell
  rw [hgd]
  have hsum := sum_map_set_balance (fun row => row.countP p) f y
    ((f[y]).set x c) (f[y]) hrow
  beta_reduce at hsum
  have hrowbal := countP_set_balance p (f[y]) x c (getCell f x y) hcell
  split_ifs at hrowbal ⊢ <;> omega

theorem countP2_le {w h : ℕ} {f : List (List Cell)} (hf : fieldWF w h f)
    (p : Cell → Bool) : countP2 p f ≤ w * h := by
  obtain ⟨hlen, hrows⟩ := hf
  subst hlen
  induction f with
  | nil => simp [countP2]
  | cons row tl ih =>
    simp only [countP2, List.map_cons, List.sum_cons, List.length_cons]
    have h1 : row.countP p ≤ w := by
      have := List.countP_le_length (p := p) (l := row)
      have := hrows row (List.mem_cons_self _ _)
      omega
    have h2 : (tl.map fun r => r.countP p).sum ≤ w * tl.length :=
      ih (fun r hr => hrows r (List.mem_cons_of_mem _ hr))
    calc row.countP p + (tl.map fun r => r.countP p).sum
        ≤ w + w * tl.length := by omega
      _ = w * (tl.length + 1) := by ring

theorem countP2_pos {w h : ℕ} {f : List (List Cell)} (hf : fieldWF w h f)
    {x y : ℕ} (hx : x < w) (hy : y < h) {p : Cell → Bool}
    (hp : p (getCell f x y) = true) : 0 < countP2 p f := by
  obtain ⟨hlen, hrows⟩ := hf
  have hy' : y < f.length := by omega
  have hrow : f[y]? = some (f[y]) := List.getElem?_eq_getElem hy'
  have hw : (f[y]).length = w := hrows _ (List.getElem_mem hy')
  have hx' : x < (f[y]).length := by omega
  have hcell : getCell f x y = (f[y])[x] := by
    simp [getCell, getCell?, hrow, List.getElem?_eq_getElem hx']
  have hpos : 0 < (f[y]).countP p := by
    rw [List.countP_pos_iff]
    exact ⟨_, List.getElem_mem hx', hcell ▸ hp⟩
  have hmem : (f[y]).countP p ∈ f.map fun row => row.countP p := by
    exact List.mem_map_of_mem _ (List.getElem_mem hy')
  have := List.single_le_sum (l := f.map fun row => row.countP p)
    (fun n _ => Nat.zero_le n) _ hmem
  unfold countP2
  omega

theorem countP_replicate_cell (p : Cell → Bool) (w : ℕ) (c : Cell) :
    (List.replicate w c).countP p = if p c then w else 0 := by
  induction w with
  | zero => simp
  | succ n ih =>
    rw [List.replicate_succ, List.countP_cons, ih]
    split_ifs with hc <;> simp [hc]

theorem countP2_replicate (p : Cell → Bool) (w h : ℕ) (c : Cell) :
    countP2 p (List.replicate h (List.replicate w c)) =
      if p c then w * h else 0 := by
  unfold countP2
  rw [List.map_replicate, countP_replicate_cell, List.sum_replicate]
  split_ifs <;> simp [Nat.mul_comm]

theorem fieldWF_replicate (w h : ℕ) (c : Cell) :
    fieldWF w h (List.replicate h (List.replicate w c)) := by
  refine ⟨List.length_replicate _ _, fun row hrow => ?_⟩
  rw [List.eq_of_mem_replicate hrow]
  exact List.length_replicate _ _

/-- The cell is gopher-free and unexposed: the cells counted by
remaining_cells. -/
def cellSafeUnexposed (c : Cell) : Bool := !c.has_gopher && !c.is_exposed

/-- The cell is unexposed (fuel measure of the flood fill). -/
def cellUnexposed (c : Cell) : Bool := !c.is_exposed

def countSafeUnexposed (s : GopherSweeper) : ℕ :=
  countP2 cellSafeUnexposed s.field

def countUnexposed (s : GopherSweeper) : ℕ :=
  countP2 cellUnexposed s.field

def gopherCount (s : GopherSweeper) : ℕ :=
  countP2 (fun c => c.has_gopher) s.field

/-- The remaining-cells invariant: remaining_cells equals the number of
cells that are gopher-free and unexposed. -/
def remainingInv (s : GopherSweeper) : Prop :=
  s.remaining_cells = countSafeUnexposed s

/-- Spec-side neighbour-gopher count: the number of grid-bounded 8-neighbours
of (x, y) holding a gopher, written from the words of the claims as a
cardinality over the coordinate rectangle. -/
def specNeighborGophers (s : GopherSweeper) (x y : ℕ) : ℕ :=
  ((Finset.range s.config.size.1 ×ˢ Finset.range s.config.size.2).filter
    (fun p => adjacent (x, y) p ∧ (getCell s.field p.1 p.2).has_gopher = true)).card

/-- Every stored surrounding_gophers value equals the spec-side neighbour
count. -/
def countsCorrect (s : GopherSweeper) : Prop :=
  ∀ x, x < s.config.size.1 → ∀ y, y < s.config.size.2 →
    (getCell s.field x y).surrounding_gophers = specNeighborGophers s x y

/-- Every exposed cell with no surrounding gophers has all its grid-bounded
neighbours exposed; this holds in every reachable state because the flood
fill finishes the neighbours of each zero-count cell it exposes. -/
def floodClosed (s : GopherSweeper) : Prop :=
  ∀ x, x < s.config.size.1 → ∀ y, y < s.config.size.2 →
    (getCell s.field x y).is_exposed = true →
    (getCell s.field x y).surrounding_gophers = 0 →
    ∀ u, u < s.config.size.1 → ∀ v, v < s.config.size.2 →
      adjacent (x, y) (u, v) → (getCell s.field u v).is_exposed = true

/-- The combined state invariant: well-formed matrix, correct neighbour
counts, correct remaining-cells counter, and flood closure.  It holds after
construction and is preserved by toggle_flag and try_expose_cell. -/
def GameInv (s : GopherSweeper) : Prop :=
  Wellformed s ∧ countsCorrect s ∧ remainingInv s ∧ floodClosed s

/-- The region reached by the flood fill from a: a itself, plus a step from
any reached in-bounds cell with zero surrounding count to any of its
grid-bounded neighbours.  When a has a zero count this is exactly the
connected zero-count region of a together with its bordering cells; when a
has a nonzero count it is just a. -/
inductive Reaches (s : GopherSweeper) (a : ℕ × ℕ) : ℕ × ℕ → Prop where
  | refl : Reaches s a a
  | step : ∀ b c : ℕ × ℕ, Reaches s a b →
      b.1 < s.config.size.1 → b.2 < s.config.size.2 →
      (getCell s.field b.1 b.2).surrounding_gophers = 0 →
      adjacent b c →
      c.1 < s.config.size.1 → c.2 < s.config.size.2 →
      Reaches s a c

/-- One player operation: a toggle_flag call or a try_expose_cell call that
does not panic. -/
inductive GameStep : GopherSweeper → GopherSweeper → Prop where
  | flag : ∀ (s : GopherSweeper) (x y : ℕ) (r : ToggleFlagResult)
      (s' : GopherSweeper), s.toggle_flag x y = some (r, s') → GameStep s s'
  | expose : ∀ (s : GopherSweeper) (x y : ℕ) (r : ExposeResult)
      (s' : GopherSweeper), s.try_expose_cell x y = some (r, s') → GameStep s s'

/-- Per-cell relation between a state and a later state of the same flood
fill: flag, gopher and count are untouched, and exposure only grows. -/
def exposeLe (c c' : Cell) : Prop :=
  c'.is_flagged = c.is_flagged ∧ c'.has_gopher = c.has_gopher ∧
  c'.surrounding_gophers = c.surrounding_gophers ∧
  (c.is_exposed = true → c'.is_exposed = true)

theorem exposeLe_refl (c : Cell) : exposeLe c c := ⟨rfl, rfl, rfl, id⟩

theorem exposeLe_trans {a b c : Cell} (h1 : exposeLe a b) (h2 : exposeLe b c) :
    exposeLe a c :=
  ⟨h2.1.trans h1.1, h2.2.1.trans h1.2.1, h2.2.2.1.trans h1.2.2.1,
    fun he => h2.2.2.2 (h1.2.2.2 he)⟩

/-- Two matrices with the same row structure. -/
def sameShape (f f' : List (List Cell)) : Prop :=
  f'.length = f.length ∧ ∀ y : ℕ, f'[y]?.map List.length = f[y]?.map List.length

theorem sameShape_refl (f : List (List Cell)) : sameShape f f := ⟨rfl, fun _ => rfl⟩

theorem sameShape_trans {f g i : List (List Cell)} (h1 : sameShape f g)
    (h2 : sameShape g i) : sameShape f i :=
  ⟨h2.1.trans h1.1, fun y => (h2.2 y).trans (h1.2 y)⟩

theorem sameShape_setCell (f : List (List Cell)) (x y : ℕ) (c : Cell) :
    sameShape f (setCell f x y c) := by
  unfold setCell
  rcases Nat.lt_or_ge y f.length with hy' | hy'
  · refine ⟨by simp, fun b => ?_⟩
    by_cases hby : b = y
    · subst hby
      have hgd : f.getD b [] = f[b] := by
        simp [List.getD_eq_getElem?_getD, List.getElem?_eq_getElem hy']
      rw [hgd, List.getElem?_set_eq_of_lt _ hy', List.getElem?_eq_getElem hy']
      simp
    · rw [List.getElem?_set_ne (fun hh => hby hh.symm)]
  · rw [List.set_eq_of_length_le hy']
    exact sameShape_refl f

theorem fieldWF_of_sameShape {w h : ℕ} {f f' : List (List Cell)}
    (hf : fieldWF w h f) (hs : sameShape f f') : fieldWF w h f' := by
  refine ⟨hs.1.trans hf.1, fun row hrow => ?_⟩
  obtain ⟨y, hy, hrow⟩ := List.mem_iff_getElem.mp hrow
  have hlen : f'.length = f.length := hs.1
  have hy2 : y < f.length := by omega
  have hmap := hs.2 y
  rw [List.getElem?_eq_getElem hy, List.getElem?_eq_getElem hy2] at hmap
  simp only [Option.map_some', Option.some.injEq] at hmap
  rw [← hrow, hmap]
  exact hf.2 _ (List.getElem_mem hy2)

/-- Everything expose_recursively leaves alone: the configuration, the
matrix shape, and per cell the flag, gopher and count fields; exposure only
ever grows. -/
def ExposeFrame (s s' : GopherSweeper) : Prop :=
  s'.config = s.config ∧ sameShape s.field s'.field ∧
  s'.remaining_cells ≤ s.remaining_cells ∧
  ∀ a b : ℕ, exposeLe (getCell s.field a b) (getCell s'.field a b)

theorem exposeFrame_refl (s : GopherSweeper) : ExposeFrame s s :=
  ⟨rfl, sameShape_refl _, Nat.le_refl _, fun _ _ => exposeLe_refl _⟩

theorem exposeFrame_trans {s t u : GopherSweeper} (h1 : ExposeFrame s t)
    (h2 : ExposeFrame t u) : ExposeFrame s u :=
  ⟨h2.1.trans h1.1, sameShape_trans h1.2.1 h2.2.1,
    Nat.le_trans h2.2.2.1 h1.2.2.1,
    fun a b => exposeLe_trans (h1.2.2.2 a b) (h2.2.2.2 a b)⟩

theorem exposeFrame_wf {s s' : GopherSweeper} (hfr : ExposeFrame s s')
    (hwf : Wellformed s) : Wellformed s' := by
  unfold Wellformed at hwf ⊢
  rw [hfr.1]
  exact fieldWF_of_sameShape hwf hfr.2.1

/-- The raw effect of setCell on the written coordinate, without any
well-formedness assumption. -/
theorem getCell?_setCell_raw (f : List (List Cell)) (x y : ℕ) (c : Cell) :
    getCell? (setCell f x y c) x y =
      if y < f.length ∧ x < (f.getD y []).length then some c
      else getCell? f x y := by
  unfold getCell? setCell
  rcases Nat.lt_or_ge y f.length with hy' | hy'
  · have hgd : f.getD y [] = f[y] := by
      simp [List.getD_eq_getElem?_getD, List.getElem?_eq_getElem hy']
    rw [hgd, List.getElem?_set_eq_of_lt _ hy', List.getElem?_eq_getElem hy']
    rcases Nat.lt_or_ge x (f[y]).length with hx' | hx'
    · simp [List.getElem?_set_eq_of_lt _ hx', hy', hgd, hx']
    · rw [List.set_eq_of_length_le hx']
      simp only [Option.some_bind]
      rw [if_neg (by omega)]
  · rw [List.set_eq_of_length_le hy']
    rw [if_neg (by omega)]

theorem exposeStep_frame (s : GopherSweeper) (x y : ℕ) :
    ExposeFrame s (exposeStep s x y) := by
  refine ⟨rfl, sameShape_setCell _ _ _ _, Nat.sub_le _ _, ?_⟩
  intro a b
  by_cases hab : a = x ∧ b = y
  · obtain ⟨hax, hby⟩ := hab
    subst hax; subst hby
    show exposeLe (getCell s.field a b)
      (getCell (setCell s.field a b { getCell s.field a b with is_exposed := true }) a b)
    unfold getCell
    rw [getCell?_setCell_raw]
    split_ifs with hin
    · exact ⟨rfl, rfl, rfl, fun _ => rfl⟩
    · exact exposeLe_refl _
  · show exposeLe (getCell s.field a b)
      (getCell (setCell s.field x y { getCell s.field x y with is_exposed := true }) a b)
    rw [getCell_setCell_ne _ hab]
    exact exposeLe_refl _

theorem exposeGo_frame {F : GopherSweeper → ℕ → ℕ → Option GopherSweeper}
    (hF : ∀ t a b t', F t a b = some t' → ExposeFrame t t') :
    ∀ (l : List (ℕ × ℕ)) (t t' : GopherSweeper),
      exposeGo F t l = some t' → ExposeFrame t t' := by
  intro l
  induction l with
  | nil =>
    intro t t' hgo
    cases hgo
    exact exposeFrame_refl _
  | cons c rest ih =>
    intro t t' hgo
    obtain ⟨cx, cy⟩ := c
    unfold exposeGo at hgo
    split at hgo
    · exact ih t t' hgo
    · cases hFt : F t cx cy with
      | none => rw [hFt] at hgo; cases hgo
      | some t1 =>
        rw [hFt] at hgo
        exact exposeFrame_trans (hF t cx cy t1 hFt) (ih t1 t' hgo)

theorem exposeRec_frame :
    ∀ (fuel : ℕ) (s : GopherSweeper) (x y : ℕ) (s' : GopherSweeper),
      expose_recursively fuel s x y = some s' → ExposeFrame s s' := by
  intro fuel
  induction fuel with
  | zero => intro s x y s' hrec; cases hrec
  | succ fuel ih =>
    intro s x y s' hrec
    unfold expose_recursively at hrec
    split at hrec
    · exact exposeFrame_trans (exposeStep_frame s x y)
        (exposeGo_frame (fun t a b t' ht => ih t a b t' ht) _ _ _ hrec)
    · cases hrec
      exact exposeStep_frame s x y

theorem exposeStep_countUnexposed {s : GopherSweeper} (hwf : Wellformed s)
    {x y : ℕ} (hx : x < s.config.size.1) (hy : y < s.config.size.2)
    (hne : (getCell s.field x y).is_exposed = false) :
    countUnexposed (exposeStep s x y) + 1 = countUnexposed s := by
  have hbal := countP2_setCell cellUnexposed hwf hx hy
    { getCell s.field x y with is_exposed := true }
  simp only [cellUnexposed, hne, Bool.not_false, if_true, Bool.not_true,
    Bool.false_eq_true, if_false, Nat.add_zero] at hbal
  exact hbal

theorem exposeStep_countSafeUnexposed {s : GopherSweeper} (hwf : Wellformed s)
    {x y : ℕ} (hx : x < s.config.size.1) (hy : y < s.config.size.2)
    (hne : (getCell s.field x y).is_exposed = false)
    (hng : (getCell s.field x y).has_gopher = false) :
    countSafeUnexposed (exposeStep s x y) + 1 = countSafeUnexposed s := by
  have hbal := countP2_setCell cellSafeUnexposed hwf hx hy
    { getCell s.field x y with is_exposed := true }
  have h1 : cellSafeUnexposed (getCell s.field x y) = true := by
    simp [cellSafeUnexposed, hne, hng]
  have h2 : cellSafeUnexposed { getCell s.field x y with is_exposed := true }
      = false := by
    simp [cellSafeUnexposed]
  rw [h1, h2] at hbal
  simp only [if_true, Bool.false_eq_true, if_false, Nat.add_zero] at hbal
  exact hbal

theorem countUnexposed_pos {s : GopherSweeper} (hwf : Wellformed s)
    {x y : ℕ} (hx : x < s.config.size.1) (hy : y < s.config.size.2)
    (hne : (getCell s.field x y).is_exposed = false) :
    0 < countUnexposed s :=
  countP2_pos hwf hx hy (p := cellUnexposed) (by simp [cellUnexposed, hne])

theorem countSafeUnexposed_pos {s : GopherSweeper} (hwf : Wellformed s)
    {x y : ℕ} (hx : x < s.config.size.1) (hy : y < s.config.size.2)
    (hne : (getCell s.field x y).is_exposed = false)
    (hng : (getCell s.field x y).has_gopher = false) :
    0 < countSafeUnexposed s :=
  countP2_pos hwf hx hy (p := cellSafeUnexposed)
    (by simp [cellSafeUnexposed, hne, hng])

theorem exposeGo_total {fuel : ℕ}
    (IH : ∀ (t : GopherSweeper) (a b : ℕ), Wellformed t →
      a < t.config.size.1 → b < t.config.size.2 →
      (getCell t.field a b).is_exposed = false → countUnexposed t ≤ fuel →
      ∃ t', expose_recursively fuel t a b = some t' ∧
        countUnexposed t' < countUnexposed t) :
    ∀ (l : List (ℕ × ℕ)) (t : GopherSweeper), Wellformed t →
      (∀ c ∈ l, c.1 < t.config.size.1 ∧ c.2 < t.config.size.2) →
      countUnexposed t ≤ fuel →
      ∃ t', exposeGo (expose_recursively fuel) t l = some t' ∧
        countUnexposed t' ≤ countUnexposed t := by
  intro l
  induction l with
  | nil => intro t hwf hl hc; exact ⟨t, rfl, Nat.le_refl _⟩
  | cons c rest ihl =>
    intro t hwf hl hc
    obtain ⟨cx, cy⟩ := c
    unfold exposeGo
    by_cases hexp : (getCell t.field cx cy).is_exposed = true
    · rw [if_pos hexp]
      exact ihl t hwf (fun d hd => hl d (List.mem_cons_of_mem _ hd)) hc
    · rw [if_neg hexp]
      have hb := hl (cx, cy) (List.mem_cons_self _ _)
      have hne : (getCell t.field cx cy).is_exposed = false :=
        Bool.eq_false_iff.mpr hexp
      obtain ⟨t1, hrec, hlt⟩ := IH t cx cy hwf hb.1 hb.2 hne hc
      rw [hrec]
      have hfr := exposeRec_frame fuel t cx cy t1 hrec
      have hwf1 : Wellformed t1 := exposeFrame_wf hfr hwf
      have hl1 : ∀ d ∈ rest, d.1 < t1.config.size.1 ∧ d.2 < t1.config.size.2 := by
        intro d hd
        rw [hfr.1]
        exact hl d (List.mem_cons_of_mem _ hd)
      obtain ⟨t', hgo, hle⟩ := ihl t1 hwf1 hl1 (by omega)
      exact ⟨t', hgo, by omega⟩

/-- Fuel sufficiency for the flood fill: on any well-formed state, starting
from an in-bounds unexposed cell, fuel at least the number of unexposed
cells makes the recursion complete, and at least one cell gets exposed. -/
theorem exposeRec_total :
    ∀ (fuel : ℕ) (s : GopherSweeper) (x y : ℕ),
      Wellformed s → x < s.config.size.1 → y < s.config.size.2 →
      (getCell s.field x y).is_exposed = false →
      countUnexposed s ≤ fuel →
      ∃ s', expose_recursively fuel s x y = some s' ∧
        countUnexposed s' < countUnexposed s := by
  intro fuel
  induction fuel with
  | zero =>
    intro s x y hwf hx hy hne hcount
    exfalso
    have := countUnexposed_pos hwf hx hy hne
    omega
  | succ fuel ih =>
    intro s x y hwf hx hy hne hcount
    have hstep : countUnexposed (exposeStep s x y) + 1 = countUnexposed s :=
      exposeStep_countUnexposed hwf hx hy hne
    have hwf1 : Wellformed (exposeStep s x y) :=
      exposeFrame_wf (exposeStep_frame s x y) hwf
    unfold expose_recursively
    by_cases hz : (getCell s.field x y).surrounding_gophers = 0
    · rw [if_pos hz]
      have hcoords : (exposeStep s x y).surrounding_cells_coords x y =
          surroundingCoords s.config.size.1 s.config.size.2 x y := rfl
      have hl : ∀ c ∈ (exposeStep s x y).surrounding_cells_coords x y,
          c.1 < (exposeStep s x y).config.size.1 ∧
          c.2 < (exposeStep s x y).config.size.2 := by
        intro c hcmem
        rw [hcoords] at hcmem
        have := (mem_surroundingCoords hx hy c).mp hcmem
        exact ⟨this.1, this.2.1⟩
      obtain ⟨t', hgo, hle⟩ := exposeGo_total ih _ _ hwf1 hl (by omega)
      exact ⟨t', hgo, by omega⟩
    · rw [if_neg hz]
      exact ⟨_, rfl, by omega⟩

/-- No gopher sits next to a cell whose stored count is zero; this follows
from correctness of the stored counts and is what makes the flood fill skip
the gopher re-check soundly. -/
def noGopherNearZero (s : GopherSweeper) : Prop :=
  ∀ x, x < s.config.size.1 → ∀ y, y < s.config.size.2 →
    (getCell s.field x y).surrounding_gophers = 0 →
    ∀ u, u < s.config.size.1 → ∀ v, v < s.config.size.2 →
      adjacent (x, y) (u, v) → (getCell s.field u v).has_gopher = false

theorem noGopherNearZero_of_countsCorrect {s : GopherSweeper}
    (hcc : countsCorrect s) : noGopherNearZero s := by
  intro x hx y hy hz u hu v hv hadj
  have hcount := hcc x hx y hy
  rw [hz] at hcount
  have hcard := hcount.symm
  unfold specNeighborGophers at hcard
  rw [Finset.card_eq_zero] at hcard
  by_contra hg
  have hg' : (getCell s.field u v).has_gopher = true := by
    cases hval : (getCell s.field u v).has_gopher
    · exact absurd hval hg
    · rfl
  have hmem : (u, v) ∈ (Finset.range s.config.size.1 ×ˢ
      Finset.range s.config.size.2).filter
      (fun p => adjacent (x, y) p ∧ (getCell s.field p.1 p.2).has_gopher = true) := by
    rw [Finset.mem_filter, Finset.mem_product, Finset.mem_range, Finset.mem_range]
    exact ⟨⟨hu, hv⟩, hadj, hg'⟩
  rw [hcard] at hmem
  cases hmem

theorem noGopherNearZero_frame {s s' : GopherSweeper}
    (hfr : ExposeFrame s s') (hng : noGopherNearZero s) :
    noGopherNearZero s' := by
  intro x hx y hy hz u hu v hv hadj
  rw [hfr.1] at hx hy hu hv
  have h1 := (hfr.2.2.2 x y).2.2.1
  have h2 := (hfr.2.2.2 u v).2.1
  rw [h1] at hz
  rw [h2]
  exact hng x hx y hy hz u hu v hv hadj

theorem exposeGo_remaining {fuel : ℕ}
    (IH : ∀ (t : GopherSweeper) (a b : ℕ) (t' : GopherSweeper),
      Wellformed t → noGopherNearZero t →
      a < t.config.size.1 → b < t.config.size.2 →
      (getCell t.field a b).is_exposed = false →
      (getCell t.field a b).has_gopher = false →
      expose_recursively fuel t a b = some t' →
      t.remaining_cells = countSafeUnexposed t →
      t'.remaining_cells = countSafeUnexposed t') :
    ∀ (l : List (ℕ × ℕ)) (t t' : GopherSweeper),
      Wellformed t → noGopherNearZero t →
      (∀ c ∈ l, c.1 < t.config.size.1 ∧ c.2 < t.config.size.2 ∧
        (getCell t.field c.1 c.2).has_gopher = false) →
      exposeGo (expose_recursively fuel) t l = some t' →
      t.remaining_cells = countSafeUnexposed t →
      t'.remaining_cells = countSafeUnexposed t' := by
  intro l
  induction l with
  | nil =>
    intro t t' hwf hng hl hgo hrem
    cases hgo
    exact hrem
  | cons c rest ihl =>
    intro t t' hwf hng hl hgo hrem
    obtain ⟨cx, cy⟩ := c
    unfold exposeGo at hgo
    split at hgo
    · exact ihl t t' hwf hng
        (fun d hd => hl d (List.mem_cons_of_mem _ hd)) hgo hrem
    · cases hrec : expose_recursively fuel t cx cy with
      | none => rw [hrec] at hgo; cases hgo
      | some t1 =>
        rw [hrec] at hgo
        have hb := hl (cx, cy) (List.mem_cons_self _ _)
        have hne : (getCell t.field cx cy).is_exposed = false := by
          rename_i hnotexp
          cases hval : (getCell t.field cx cy).is_exposed
          · rfl
          · exact absurd hval hnotexp
        have hrem1 := IH t cx cy t1 hwf hng hb.1 hb.2.1 hne hb.2.2 hrec hrem
        have hfr := exposeRec_frame fuel t cx cy t1 hrec
        have hwf1 : Wellformed t1 := exposeFrame_wf hfr hwf
        have hng1 : noGopherNearZero t1 := noGopherNearZero_frame hfr hng
        have hl1 : ∀ d ∈ rest, d.1 < t1.config.size.1 ∧
            d.2 < t1.config.size.2 ∧
            (getCell t1.field d.1 d.2).has_gopher = false := by
          intro d hd
          have hdt := hl d (List.mem_cons_of_mem _ hd)
          rw [hfr.1]
          refine ⟨hdt.1, hdt.2.1, ?_⟩
          rw [(hfr.2.2.2 d.1 d.2).2.1]
          exact hdt.2.2
        exact ihl t1 t' hwf1 hng1 hl1 hgo hrem1

/-- The flood fill keeps remaining_cells equal to the number of gopher-free
unexposed cells, provided no gopher borders a zero-count cell and the start
cell is gopher-free and unexposed. -/
theorem exposeRec_remaining :
    ∀ (fuel : ℕ) (s : GopherSweeper) (x y : ℕ) (s' : GopherSweeper),
      Wellformed s → noGopherNearZero s →
      x < s.config.size.1 → y < s.config.size.2 →
      (getCell s.field x y).is_exposed = false →
      (getCell s.field x y).has_gopher = false →
      expose_recursively fuel s x y = some s' →
      s.remaining_cells = countSafeUnexposed s →
      s'.remaining_cells = countSafeUnexposed s' := by
  intro fuel
  induction fuel with
  | zero => intro s x y s' _ _ _ _ _ _ hrec; cases hrec
  | succ fuel ih =>
    intro s x y s' hwf hng hx hy hne hg hrec hrem
    have hpos : 0 < countSafeUnexposed s := countSafeUnexposed_pos hwf hx hy hne hg
    have hsafe : countSafeUnexposed (exposeStep s x y) + 1 = countSafeUnexposed s :=
      exposeStep_countSafeUnexposed hwf hx hy hne hg
    have hrem1 : (exposeStep s x y).remaining_cells =
        countSafeUnexposed (exposeStep s x y) := by
      have hdef : (exposeStep s x y).remaining_cells = s.remaining_cells - 1 := rfl
      omega
    have hfr1 := exposeStep_frame s x y
    have hwf1 : Wellformed (exposeStep s x y) := exposeFrame_wf hfr1 hwf
    have hng1 : noGopherNearZero (exposeStep s x y) :=
      noGopherNearZero_frame hfr1 hng
    unfold expose_recursively at hrec
    split at hrec
    · rename_i hz
      have hcoords : (exposeStep s x y).surrounding_cells_coords x y =
          surroundingCoords s.config.size.1 s.config.size.2 x y := rfl
      have hl : ∀ c ∈ (exposeStep s x y).surrounding_cells_coords x y,
          c.1 < (exposeStep s x y).config.size.1 ∧
          c.2 < (exposeStep s x y).config.size.2 ∧
          (getCell (exposeStep s x y).field c.1 c.2).has_gopher = false := by
        intro c hcmem
        rw [hcoords] at hcmem
        have hmem := (mem_surroundingCoords hx hy c).mp hcmem
        refine ⟨hmem.1, hmem.2.1, ?_⟩
        have hz1 : (getCell (exposeStep s x y).field x y).surrounding_gophers = 0 := by
          rw [((exposeStep_frame s x y).2.2.2 x y).2.2.1]
          exact hz
        exact hng1 x hx y hy hz1 c.1 hmem.1 c.2 hmem.2.1 hmem.2.2
      exact exposeGo_remaining ih _ _ _ hwf1 hng1 hl hrec hrem1
    · cases hrec
      exact hrem1

theorem reaches_trans {s : GopherSweeper} {a b c : ℕ × ℕ}
    (hab : Reaches s a b) (hbc : Reaches s b c) : Reaches s a c := by
  induction hbc with
  | refl => exact hab
  | step d e hd hd1 hd2 hz hadj he1 he2 ih =>
    exact Reaches.step d e ih hd1 hd2 hz hadj he1 he2

theorem reaches_of_frame {s s' : GopherSweeper} {a c : ℕ × ℕ}
    (hfr : ExposeFrame s s') (h : Reaches s' a c) : Reaches s a c := by
  induction h with
  | refl => exact .refl
  | step b d hb hb1 hb2 hz hadj hd1 hd2 ih =>
    rw [hfr.1] at hb1 hb2 hd1 hd2
    rw [(hfr.2.2.2 b.1 b.2).2.2.1] at hz
    exact .step b d ih hb1 hb2 hz hadj hd1 hd2

theorem reaches_to_frame {s s' : GopherSweeper} {a c : ℕ × ℕ}
    (hfr : ExposeFrame s s') (h : Reaches s a c) : Reaches s' a c := by
  induction h with
  | refl => exact .refl
  | step b d hb hb1 hb2 hz hadj hd1 hd2 ih =>
    rw [← hfr.1] at hb1 hb2 hd1 hd2
    rw [← (hfr.2.2.2 b.1 b.2).2.2.1] at hz
    exact .step b d ih hb1 hb2 hz hadj hd1 hd2

theorem exposeStep_exposed_sound {s : GopherSweeper} {x y a b : ℕ}
    (hexp : (getCell (exposeStep s x y).field a b).is_exposed = true) :
    (getCell s.field a b).is_exposed = true ∨ (a = x ∧ b = y) := by
  by_cases hab : a = x ∧ b = y
  · exact Or.inr hab
  · left
    simp only [exposeStep] at hexp
    rw [getCell_setCell_ne _ hab] at hexp
    exact hexp

theorem exposeGo_sound {fuel : ℕ}
    (IH : ∀ (t : GopherSweeper) (a b : ℕ) (t' : GopherSweeper),
      a < t.config.size.1 → b < t.config.size.2 →
      expose_recursively fuel t a b = some t' →
      ∀ u v : ℕ, (getCell t'.field u v).is_exposed = true →
        (getCell t.field u v).is_exposed = true ∨ Reaches t (a, b) (u, v)) :
    ∀ (l : List (ℕ × ℕ)) (s0 : GopherSweeper) (a : ℕ × ℕ)
      (t t' : GopherSweeper),
      ExposeFrame s0 t →
      (∀ c ∈ l, Reaches s0 a c ∧ c.1 < s0.config.size.1 ∧
        c.2 < s0.config.size.2) →
      exposeGo (expose_recursively fuel) t l = some t' →
      ∀ u v : ℕ, (getCell t'.field u v).is_exposed = true →
        (getCell t.field u v).is_exposed = true ∨ Reaches s0 a (u, v) := by
  intro l
  induction l with
  | nil =>
    intro s0 a t t' hfr hl hgo u v hexp
    cases hgo
    exact Or.inl hexp
  | cons c rest ihl =>
    intro s0 a t t' hfr hl hgo u v hexp
    obtain ⟨cx, cy⟩ := c
    unfold exposeGo at hgo
    split at hgo
    · exact ihl s0 a t t' hfr (fun d hd => hl d (List.mem_cons_of_mem _ hd))
        hgo u v hexp
    · cases hrec : expose_recursively fuel t cx cy with
      | none => rw [hrec] at hgo; cases hgo
      | some t1 =>
        rw [hrec] at hgo
        have hc := hl (cx, cy) (List.mem_cons_self _ _)
        have hcx : cx < t.config.size.1 := by rw [hfr.1]; exact hc.2.1
        have hcy : cy < t.config.size.2 := by rw [hfr.1]; exact hc.2.2
        have hfr1 := exposeRec_frame fuel t cx cy t1 hrec
        have hfr01 := exposeFrame_trans hfr hfr1
        have hrest : ∀ d ∈ rest, Reaches s0 a d ∧ d.1 < s0.config.size.1 ∧
            d.2 < s0.config.size.2 :=
          fun d hd => hl d (List.mem_cons_of_mem _ hd)
        have htail := ihl s0 a t1 t' hfr01 hrest hgo u v hexp
        rcases htail with ht1 | hr
        · rcases IH t cx cy t1 hcx hcy hrec u v ht1 with ht | hrt
          · exact Or.inl ht
          · right
            have hrs0 : Reaches s0 (cx, cy) (u, v) := reaches_of_frame hfr hrt
            exact reaches_trans hc.1 hrs0
        · exact Or.inr hr

/-- Soundness of the flood fill: every cell it newly exposes lies in the
reached region of the start cell. -/
theorem exposeRec_sound :
    ∀ (fuel : ℕ) (s : GopherSweeper) (x y : ℕ) (s' : GopherSweeper),
      x < s.config.size.1 → y < s.config.size.2 →
      expose_recursively fuel s x y = some s' →
      ∀ u v : ℕ, (getCell s'.field u v).is_exposed = true →
        (getCell s.field u v).is_exposed = true ∨ Reaches s (x, y) (u, v) := by
  intro fuel
  induction fuel with
  | zero => intro s x y s' _ _ hrec; cases hrec
  | succ fuel ih =>
    intro s x y s' hx hy hrec u v hexp
    unfold expose_recursively at hrec
    split at hrec
    · rename_i hz
      have hfr1 := exposeStep_frame s x y
      have hcoords : (exposeStep s x y).surrounding_cells_coords x y =
          surroundingCoords s.config.size.1 s.config.size.2 x y := rfl
      have hl : ∀ c ∈ (exposeStep s x y).surrounding_cells_coords x y,
          Reaches s (x, y) c ∧ c.1 < s.config.size.1 ∧
          c.2 < s.config.size.2 := by
        intro c hcmem
        rw [hcoords] at hcmem
        have hmem := (mem_surroundingCoords hx hy c).mp hcmem
        refine ⟨?_, hmem.1, hmem.2.1⟩
        exact Reaches.step (x, y) c .refl hx hy hz hmem.2.2 hmem.1 hmem.2.1
      have hmain := exposeGo_sound ih _ s (x, y) (exposeStep s x y) s' hfr1
        hl hrec u v hexp
      rcases hmain with h1 | hr
      · rcases exposeStep_exposed_sound h1 with hs | ⟨hux, hvy⟩
        · exact Or.inl hs
        · subst hux; subst hvy
          exact Or.inr .refl
      · exact Or.inr hr
    · cases hrec
      rcases exposeStep_exposed_sound hexp with hs | ⟨hux, hvy⟩
      · exact Or.inl hs
      · subst hux; subst hvy
        exact Or.inr .refl

theorem exposeStep_exposes {s : GopherSweeper} (hwf : Wellformed s)
    {x y : ℕ} (hx : x < s.config.size.1) (hy : y < s.config.size.2) :
    (getCell (exposeStep s x y).field x y).is_exposed = true := by
  simp only [exposeStep]
  rw [getCell_setCell_self hwf hx hy]

/-- Flood closure outside an exception set X: every exposed zero-count cell
not in X has all its grid-bounded neighbours exposed.  The exception set
carries the cells whose neighbour loop is still running. -/
def floodClosedX (s : GopherSweeper) (X : ℕ × ℕ → Prop) : Prop :=
  ∀ p : ℕ × ℕ, p.1 < s.config.size.1 → p.2 < s.config.size.2 → ¬ X p →
    (getCell s.field p.1 p.2).is_exposed = true →
    (getCell s.field p.1 p.2).surrounding_gophers = 0 →
    ∀ q : ℕ × ℕ, q.1 < s.config.size.1 → q.2 < s.config.size.2 →
      adjacent p q → (getCell s.field q.1 q.2).is_exposed = true

theorem floodClosed_iff_X (s : GopherSweeper) :
    floodClosed s ↔ floodClosedX s (fun _ => False) := by
  constructor
  · intro hfc p hp1 hp2 _ hexp hz q hq1 hq2 hadj
    exact hfc p.1 hp1 p.2 hp2 hexp hz q.1 hq1 q.2 hq2 hadj
  · intro hfc x hx y hy hexp hz u hu v hv hadj
    exact hfc (x, y) hx hy (fun hfalse => hfalse) hexp hz (u, v) hu hv hadj

theorem exposeGo_complete {fuel : ℕ}
    (IH : ∀ (t : GopherSweeper) (a b : ℕ) (t' : GopherSweeper)
      (X : ℕ × ℕ → Prop), Wellformed t →
      a < t.config.size.1 → b < t.config.size.2 →
      floodClosedX t X → expose_recursively fuel t a b = some t' →
      (getCell t'.field a b).is_exposed = true ∧ floodClosedX t' X) :
    ∀ (l : List (ℕ × ℕ)) (t t' : GopherSweeper) (X : ℕ × ℕ → Prop),
      Wellformed t →
      (∀ c ∈ l, c.1 < t.config.size.1 ∧ c.2 < t.config.size.2) →
      floodClosedX t X →
      exposeGo (expose_recursively fuel) t l = some t' →
      floodClosedX t' X ∧
        ∀ c ∈ l, (getCell t'.field c.1 c.2).is_exposed = true := by
  intro l
  induction l with
  | nil =>
    intro t t' X hwf hl hfc hgo
    cases hgo
    exact ⟨hfc, fun c hc => absurd hc (List.not_mem_nil c)⟩
  | cons c rest ihl =>
    intro t t' X hwf hl hfc hgo
    obtain ⟨cx, cy⟩ := c
    unfold exposeGo at hgo
    split at hgo
    · rename_i hexp
      obtain ⟨hfc', hrest⟩ := ihl t t' X hwf
        (fun d hd => hl d (List.mem_cons_of_mem _ hd)) hfc hgo
      have hfr := exposeGo_frame (fun ta a b tb htb =>
        exposeRec_frame fuel ta a b tb htb) rest t t' hgo
      refine ⟨hfc', fun d hd => ?_⟩
      rcases List.mem_cons.mp hd with hdc | hdr
      · subst hdc
        exact (hfr.2.2.2 cx cy).2.2.2 hexp
      · exact hrest d hdr
    · rename_i hnexp
      cases hrec : expose_recursively fuel t cx cy with
      | none => rw [hrec] at hgo; cases hgo
      | some t1 =>
        rw [hrec] at hgo
        have hb := hl (cx, cy) (List.mem_cons_self _ _)
        obtain ⟨hexp1, hfc1⟩ := IH t cx cy t1 X hwf hb.1 hb.2 hfc hrec
        have hfr1 := exposeRec_frame fuel t cx cy t1 hrec
        have hwf1 : Wellformed t1 := exposeFrame_wf hfr1 hwf
        have hl1 : ∀ d ∈ rest, d.1 < t1.config.size.1 ∧
            d.2 < t1.config.size.2 := by
          intro d hd
          rw [hfr1.1]
          exact hl d (List.mem_cons_of_mem _ hd)
        obtain ⟨hfc', hrest⟩ := ihl t1 t' X hwf1 hl1 hfc1 hgo
        have hfrtail := exposeGo_frame (fun ta a b tb htb =>
          exposeRec_frame fuel ta a b tb htb) rest t1 t' hgo
        refine ⟨hfc', fun d hd => ?_⟩
        rcases List.mem_cons.mp hd with hdc | hdr
        · subst hdc
          exact (hfrtail.2.2.2 cx cy).2.2.2 hexp1
        · exact hrest d hdr

/-- Completeness scaffolding for the flood fill: the start cell ends up
exposed, and flood closure outside any exception set is preserved. -/
theorem exposeRec_complete :
    ∀ (fuel : ℕ) (t : GopherSweeper) (a b : ℕ) (t' : GopherSweeper)
      (X : ℕ × ℕ → Prop), Wellformed t →
      a < t.config.size.1 → b < t.config.size.2 →
      floodClosedX t X → expose_recursively fuel t a b = some t' →
      (getCell t'.field a b).is_exposed = true ∧ floodClosedX t' X := by
  intro fuel
  induction fuel with
  | zero => intro t a b t' X _ _ _ _ hrec; cases hrec
  | succ fuel ih =>
    intro s x y s' X hwf hx hy hfc hrec
    have hfr1 := exposeStep_frame s x y
    have hwf1 : Wellformed (exposeStep s x y) := exposeFrame_wf hfr1 hwf
    have hexp1 : (getCell (exposeStep s x y).field x y).is_exposed = true :=
      exposeStep_exposes hwf hx hy
    unfold expose_recursively at hrec
    split at hrec
    · rename_i hz
      -- during the neighbour loop, (x, y) joins the exception set
      have hfcX : floodClosedX (exposeStep s x y)
          (fun p => X p ∨ p = (x, y)) := by
        intro p hp1 hp2 hpX hpexp hpz q hq1 hq2 hadj
        rw [hfr1.1] at hp1 hp2 hq1 hq2
        have hpne : ¬(p.1 = x ∧ p.2 = y) := by
          intro hpp
          exact hpX (Or.inr (Prod.ext hpp.1 hpp.2))
        have hpexp0 : (getCell s.field p.1 p.2).is_exposed = true := by
          rcases exposeStep_exposed_sound hpexp with hh | hh
          · exact hh
          · exact absurd hh hpne
        have hpz0 : (getCell s.field p.1 p.2).surrounding_gophers = 0 := by
          rw [← (hfr1.2.2.2 p.1 p.2).2.2.1]
          exact hpz
        have := hfc p hp1 hp2 (fun hxp => hpX (Or.inl hxp)) hpexp0 hpz0
          q hq1 hq2 hadj
        exact (hfr1.2.2.2 q.1 q.2).2.2.2 this
      have hcoords : (exposeStep s x y).surrounding_cells_coords x y =
          surroundingCoords s.config.size.1 s.config.size.2 x y := rfl
      have hl : ∀ c ∈ (exposeStep s x y).surrounding_cells_coords x y,
          c.1 < (exposeStep s x y).config.size.1 ∧
          c.2 < (exposeStep s x y).config.size.2 := by
        intro c hcmem
        rw [hcoords] at hcmem
        have hmem := (mem_surroundingCoords hx hy c).mp hcmem
        exact ⟨hmem.1, hmem.2.1⟩
      obtain ⟨hfc', hnb⟩ := exposeGo_complete ih _ _ _ _ hwf1 hl hfcX hrec
      have hfrloop := exposeGo_frame (fun ta a b tb htb =>
        exposeRec_frame fuel ta a b tb htb) _ _ _ hrec
      have hexpfin : (getCell s'.field x y).is_exposed = true :=
        (hfrloop.2.2.2 x y).2.2.2 hexp1
      refine ⟨hexpfin, ?_⟩
      intro p hp1 hp2 hpX hpexp hpz q hq1 hq2 hadj
      by_cases hpxy : p = (x, y)
      · subst hpxy
        have hcfg : s'.config = s.config :=
          (exposeFrame_trans hfr1 hfrloop).1
        rw [hcfg] at hq1 hq2
        have hqmem : q ∈ surroundingCoords s.config.size.1
            s.config.size.2 x y := by
          rw [mem_surroundingCoords hx hy]
          exact ⟨hq1, hq2, hadj⟩
        rw [← hcoords] at hqmem
        exact hnb q hqmem
      · exact hfc' p hp1 hp2 (fun hor => by
          rcases hor with hXp | hpeq
          · exact hpX hXp
          · exact hpxy hpeq) hpexp hpz q hq1 hq2 hadj
    · cases hrec
      refine ⟨hexp1, ?_⟩
      rename_i hz
      intro p hp1 hp2 hpX hpexp hpz q hq1 hq2 hadj
      rw [hfr1.1] at hp1 hp2 hq1 hq2
      have hpz0 : (getCell s.field p.1 p.2).surrounding_gophers = 0 := by
        rw [← (hfr1.2.2.2 p.1 p.2).2.2.1]
        exact hpz
      have hpne : ¬(p.1 = x ∧ p.2 = y) := by
        intro hpp
        apply hz
        rw [← hpp.1, ← hpp.2]
        exact hpz0
      have hpexp0 : (getCell s.field p.1 p.2).is_exposed = true := by
        rcases exposeStep_exposed_sound hpexp with hh | hh
        · exact hh
        · exact absurd hh hpne
      have := hfc p hp1 hp2 hpX hpexp0 hpz0 q hq1 hq2 hadj
      exact (hfr1.2.2.2 q.1 q.2).2.2.2 this

theorem fieldWF_bumpFold {w h : ℕ} :
    ∀ (l : List (ℕ × ℕ)) (f : List (List Cell)), fieldWF w h f →
      fieldWF w h (bumpFold f l) := by
  intro l
  induction l with
  | nil => intro f hf; exact hf
  | cons p rest ih =>
    intro f hf
    exact ih _ (fieldWF_setCell hf _ _ _)

theorem getCell?_bumpFold {w h : ℕ} :
    ∀ (l : List (ℕ × ℕ)) (f : List (List Cell)), fieldWF w h f →
      l.Nodup → (∀ c ∈ l, c.1 < w ∧ c.2 < h) →
      ∀ a b : ℕ,
        getCell? (bumpFold f l) a b =
          (getCell? f a b).map
            (fun c => if (a, b) ∈ l then bumpCell c else c) := by
  intro l
  induction l with
  | nil =>
    intro f hf _ _ a b
    simp [bumpFold]
  | cons p rest ih =>
    intro f hf hnd hl a b
    have hp := hl p (List.mem_cons_self _ _)
    have hstep : bumpFold f (p :: rest) =
        bumpFold (setCell f p.1 p.2 (bumpCell (getCell f p.1 p.2))) rest := rfl
    rw [hstep]
    have hf1 : fieldWF w h (setCell f p.1 p.2 (bumpCell (getCell f p.1 p.2))) :=
      fieldWF_setCell hf _ _ _
    rw [ih _ hf1 (List.Nodup.of_cons hnd)
      (fun c hc => hl c (List.mem_cons_of_mem _ hc)) a b]
    by_cases hab : a = p.1 ∧ b = p.2
    · obtain ⟨ha1, hb1⟩ := hab
      subst ha1
      subst hb1
      have heta : (p.1, p.2) = p := rfl
      have hnr : (p.1, p.2) ∉ rest := by
        rw [heta]
        exact (List.nodup_cons.mp hnd).1
      have hmemp : (p.1, p.2) ∈ p :: rest := by
        rw [heta]
        exact List.mem_cons_self _ _
      rw [getCell?_setCell_self hf hp.1 hp.2]
      rw [getCell?_eq_some_of_lt hf hp.1 hp.2]
      simp [hnr, hmemp]
    · have hne : (a, b) ≠ p := fun hh => hab ⟨congrArg Prod.fst hh, congrArg Prod.snd hh⟩
      rw [getCell?_setCell_ne _ hab]
      have hmem : ((a, b) ∈ p :: rest) ↔ ((a, b) ∈ rest) := by
        rw [List.mem_cons]
        exact ⟨fun hor => hor.resolve_left hne, Or.inr⟩
      cases hcell : getCell? f a b with
      | none => simp
      | some c => simp [hmem]

theorem countP2_bumpFold {w h : ℕ} {p : Cell → Bool}
    (hp : ∀ c : Cell, p (bumpCell c) = p c) :
    ∀ (l : List (ℕ × ℕ)) (f : List (List Cell)), fieldWF w h f →
      (∀ c ∈ l, c.1 < w ∧ c.2 < h) →
      countP2 p (bumpFold f l) = countP2 p f := by
  intro l
  induction l with
  | nil => intro f _ _; rfl
  | cons d rest ih =>
    intro f hf hl
    have hd := hl d (List.mem_cons_self _ _)
    have hstep : bumpFold f (d :: rest) =
        bumpFold (setCell f d.1 d.2 (bumpCell (getCell f d.1 d.2))) rest := rfl
    rw [hstep]
    have hf1 : fieldWF w h (setCell f d.1 d.2 (bumpCell (getCell f d.1 d.2))) :=
      fieldWF_setCell hf _ _ _
    rw [ih _ hf1 (fun c hc => hl c (List.mem_cons_of_mem _ hc))]
    have hbal := countP2_setCell p hf hd.1 hd.2 (bumpCell (getCell f d.1 d.2))
    rw [hp (getCell f d.1 d.2)] at hbal
    omega

theorem getCell_replicate {w h : ℕ} {u v : ℕ} (hu : u < w) (hv : v < h)
    (c : Cell) :
    getCell (List.replicate h (List.replicate w c)) u v = c := by
  unfold getCell getCell?
  rw [List.getElem?_eq_getElem (by simpa using hv), List.getElem_replicate]
  simp only [Option.some_bind]
  rw [List.getElem?_eq_getElem (by simpa using hu), List.getElem_replicate]
  rfl

/-- Invariant of the planting loop of GopherSweeper::new: the matrix is
well-formed, never exposed or flagged, holds gophers exactly at the distinct
in-bounds coordinates planted so far, stores as each surrounding_gophers the
number of planted neighbours, and the two global counts agree with the list
of planted coordinates. -/
def PlantInv (s : GopherSweeper) (planted : List (ℕ × ℕ)) : Prop :=
  Wellformed s ∧ planted.Nodup ∧
  (∀ d ∈ planted, d.1 < s.config.size.1 ∧ d.2 < s.config.size.2) ∧
  (∀ u, u < s.config.size.1 → ∀ v, v < s.config.size.2 →
    ((getCell s.field u v).has_gopher = true ↔ (u, v) ∈ planted)) ∧
  (∀ u, u < s.config.size.1 → ∀ v, v < s.config.size.2 →
    (getCell s.field u v).is_exposed = false ∧
    (getCell s.field u v).is_flagged = false) ∧
  (∀ u, u < s.config.size.1 → ∀ v, v < s.config.size.2 →
    (getCell s.field u v).surrounding_gophers =
      planted.countP (fun d => decide (adjacent (u, v) d))) ∧
  gopherCount s = planted.length ∧
  countSafeUnexposed s = s.config.size.1 * s.config.size.2 - planted.length

theorem plantGopher_inv {s : GopherSweeper} {planted : List (ℕ × ℕ)}
    {d : ℕ × ℕ} (hinv : PlantInv s planted) (hd : d ∉ planted)
    (hdw : d.1 < s.config.size.1) (hdh : d.2 < s.config.size.2) :
    PlantInv (plantGopher s d) (d :: planted) := by
  obtain ⟨hwf, hnd, hbd, hgopher, hflags, hcounts, hgc, hsafe⟩ := hinv
  have hndc := nodup_surroundingCoords s.config.size.1 s.config.size.2 d.1 d.2
  have hbdc : ∀ c ∈ surroundingCoords s.config.size.1 s.config.size.2 d.1 d.2,
      c.1 < s.config.size.1 ∧ c.2 < s.config.size.2 := by
    intro c hc
    have := (mem_surroundingCoords hdw hdh c).mp hc
    exact ⟨this.1, this.2.1⟩
  have hf1 : fieldWF s.config.size.1 s.config.size.2
      (setCell s.field d.1 d.2
        { getCell s.field d.1 d.2 with has_gopher := true }) :=
    fieldWF_setCell hwf _ _ _
  have hf2 : fieldWF s.config.size.1 s.config.size.2 (plantGopher s d).field :=
    fieldWF_bumpFold _ _ hf1
  have hdnotc : (d.1, d.2) ∉
      surroundingCoords s.config.size.1 s.config.size.2 d.1 d.2 := by
    rw [mem_surroundingCoords hdw hdh]
    intro hcon
    exact hcon.2.2.1 rfl
  have hdesc : ∀ u v : ℕ, u < s.config.size.1 → v < s.config.size.2 →
      getCell (plantGopher s d).field u v =
        (if (u, v) ∈ surroundingCoords s.config.size.1 s.config.size.2 d.1 d.2
          then bumpCell (if u = d.1 ∧ v = d.2
            then { getCell s.field d.1 d.2 with has_gopher := true }
            else getCell s.field u v)
          else (if u = d.1 ∧ v = d.2
            then { getCell s.field d.1 d.2 with has_gopher := true }
            else getCell s.field u v)) := by
    intro u v hu hv
    have hbump := getCell?_bumpFold _ _ hf1 hndc hbdc u v
    unfold getCell
    rw [show (plantGopher s d).field = bumpFold
      (setCell s.field d.1 d.2
        { getCell s.field d.1 d.2 with has_gopher := true })
      (surroundingCoords s.config.size.1 s.config.size.2 d.1 d.2) from rfl]
    rw [hbump]
    by_cases hud : u = d.1 ∧ v = d.2
    · obtain ⟨h1, h2⟩ := hud
      subst h1
      subst h2
      rw [getCell?_setCell_self hwf hu hv]
      rw [if_neg hdnotc, if_pos ⟨rfl, rfl⟩]
      simp only [Option.map_some', Option.getD_some]
      rw [if_neg hdnotc]
      rfl
    · rw [getCell?_setCell_ne _ hud, getCell?_eq_some_of_lt hwf hu hv]
      simp only [Option.map_some', Option.getD_some]
      by_cases hmem : (u, v) ∈
          surroundingCoords s.config.size.1 s.config.size.2 d.1 d.2
      · rw [if_pos hmem, if_pos hmem, if_neg hud]
      · rw [if_neg hmem, if_neg hmem, if_neg hud]
  have hcfg : (plantGopher s d).config = s.config := rfl
  have hbumpgopher : ∀ c : Cell, (bumpCell c).has_gopher = c.has_gopher :=
    fun c => rfl
  have hbumpexp : ∀ c : Cell, (bumpCell c).is_exposed = c.is_exposed :=
    fun c => rfl
  have hbumpflag : ∀ c : Cell, (bumpCell c).is_flagged = c.is_flagged :=
    fun c => rfl
  have hbumpcnt : ∀ c : Cell,
      (bumpCell c).surrounding_gophers = c.surrounding_gophers + 1 :=
    fun c => rfl
  refine ⟨?_, List.nodup_cons.mpr ⟨hd, hnd⟩, ?_, ?_, ?_, ?_, ?_, ?_⟩
  · exact hf2
  · intro e he
    rw [hcfg]
    rcases List.mem_cons.mp he with he1 | he2
    · subst he1; exact ⟨hdw, hdh⟩
    · exact hbd e he2
  · intro u hu v hv
    rw [hcfg] at hu hv
    rw [hdesc u v hu hv]
    by_cases hud : u = d.1 ∧ v = d.2
    · obtain ⟨h1, h2⟩ := hud
      subst h1
      subst h2
      rw [if_neg hdnotc, if_pos ⟨rfl, rfl⟩]
      constructor
      · intro _
        exact List.mem_cons_self _ _
      · intro _
        rfl
    · have hne : ((u, v) : ℕ × ℕ) ≠ d := by
        intro hh
        exact hud ⟨congrArg Prod.fst hh, congrArg Prod.snd hh⟩
      have hmc : ((u, v) ∈ d :: planted) ↔ ((u, v) ∈ planted) := by
        rw [List.mem_cons]
        exact ⟨fun hor => hor.resolve_left hne, Or.inr⟩
      rw [hmc]
      by_cases hmem : (u, v) ∈
          surroundingCoords s.config.size.1 s.config.size.2 d.1 d.2
      · rw [if_pos hmem, if_neg hud, hbumpgopher]
        exact hgopher u hu v hv
      · rw [if_neg hmem, if_neg hud]
        exact hgopher u hu v hv
  · intro u hu v hv
    rw [hcfg] at hu hv
    rw [hdesc u v hu hv]
    have hbase := hflags u hu v hv
    have hbased := hflags d.1 hdw d.2 hdh
    by_cases hmem : (u, v) ∈
        surroundingCoords s.config.size.1 s.config.size.2 d.1 d.2
    · rw [if_pos hmem]
      by_cases hud : u = d.1 ∧ v = d.2
      · rw [if_pos hud]
        exact ⟨hbased.1, hbased.2⟩
      · rw [if_neg hud]
        exact ⟨hbase.1, hbase.2⟩
    · rw [if_neg hmem]
      by_cases hud : u = d.1 ∧ v = d.2
      · rw [if_pos hud]
        exact ⟨hbased.1, hbased.2⟩
      · rw [if_neg hud]
        exact ⟨hbase.1, hbase.2⟩
  · intro u hu v hv
    rw [hcfg] at hu hv
    rw [hdesc u v hu hv]
    have hmemc : ((u, v) ∈
        surroundingCoords s.config.size.1 s.config.size.2 d.1 d.2) ↔
        adjacent (d.1, d.2) (u, v) := by
      rw [mem_surroundingCoords hdw hdh]
      constructor
      · intro hh; exact hh.2.2
      · intro hh; exact ⟨hu, hv, hh⟩
    have hcountd : (d :: planted).countP
        (fun e => decide (adjacent (u, v) e)) =
        planted.countP (fun e => decide (adjacent (u, v) e)) +
        (if adjacent (u, v) d then 1 else 0) := by
      rw [List.countP_cons]
      by_cases hadj : adjacent ((u, v) : ℕ × ℕ) d
      · rw [if_pos hadj]
        simp [hadj]
      · rw [if_neg hadj]
        simp [hadj]
    rw [hcountd]
    by_cases hud : u = d.1 ∧ v = d.2
    · obtain ⟨h1, h2⟩ := hud
      subst h1
      subst h2
      rw [if_neg hdnotc, if_pos ⟨rfl, rfl⟩]
      have hnadj : ¬ adjacent ((d.1, d.2) : ℕ × ℕ) d := by
        intro hc
        apply hc.1
        rfl
      rw [if_neg hnadj]
      show (getCell s.field d.1 d.2).surrounding_gophers = _
      rw [hcounts d.1 hu d.2 hv]
      omega
    · by_cases hmem : (u, v) ∈
          surroundingCoords s.config.size.1 s.config.size.2 d.1 d.2
      · rw [if_pos hmem, if_neg hud, hbumpcnt]
        have hadj : adjacent ((u, v) : ℕ × ℕ) d :=
          adjacent_symm (hmemc.mp hmem)
        rw [if_pos hadj]
        rw [hcounts u hu v hv]
      · rw [if_neg hmem, if_neg hud]
        have hnadj : ¬ adjacent ((u, v) : ℕ × ℕ) d := by
          intro hadj
          exact hmem (hmemc.mpr (adjacent_symm hadj))
        rw [if_neg hnadj]
        rw [hcounts u hu v hv]
        omega
  · show countP2 (fun c => c.has_gopher) (plantGopher s d).field = _
    rw [show (plantGopher s d).field = bumpFold
      (setCell s.field d.1 d.2
        { getCell s.field d.1 d.2 with has_gopher := true })
      (surroundingCoords s.config.size.1 s.config.size.2 d.1 d.2) from rfl]
    rw [countP2_bumpFold (p := fun c => c.has_gopher) (fun c => rfl) _ _ hf1 hbdc]
    have hbal := countP2_setCell (fun c => c.has_gopher) hwf hdw hdh
      { getCell s.field d.1 d.2 with has_gopher := true }
    have hng : (getCell s.field d.1 d.2).has_gopher = false := by
      cases hval : (getCell s.field d.1 d.2).has_gopher
      · rfl
      · exact absurd ((hgopher d.1 hdw d.2 hdh).mp hval) hd
    rw [hng] at hbal
    simp only [Bool.false_eq_true, if_false, Nat.add_zero, if_true] at hbal
    unfold gopherCount at hgc
    simp only [List.length_cons]
    omega
  · show countP2 cellSafeUnexposed (plantGopher s d).field = _
    rw [show (plantGopher s d).field = bumpFold
      (setCell s.field d.1 d.2
        { getCell s.field d.1 d.2 with has_gopher := true })
      (surroundingCoords s.config.size.1 s.config.size.2 d.1 d.2) from rfl]
    rw [countP2_bumpFold (p := cellSafeUnexposed) (fun c => rfl) _ _ hf1 hbdc]
    have hbal := countP2_setCell cellSafeUnexposed hwf hdw hdh
      { getCell s.field d.1 d.2 with has_gopher := true }
    have hng : (getCell s.field d.1 d.2).has_gopher = false := by
      cases hval : (getCell s.field d.1 d.2).has_gopher
      · rfl
      · exact absurd ((hgopher d.1 hdw d.2 hdh).mp hval) hd
    have hexp : (getCell s.field d.1 d.2).is_exposed = false :=
      (hflags d.1 hdw d.2 hdh).1
    have hold : cellSafeUnexposed (getCell s.field d.1 d.2) = true := by
      simp [cellSafeUnexposed, hng, hexp]
    have hnew : cellSafeUnexposed
        { getCell s.field d.1 d.2 with has_gopher := true } = false := by
      simp [cellSafeUnexposed]
    rw [hold, hnew] at hbal
    simp only [if_true, Bool.false_eq_true, if_false, Nat.add_zero] at hbal
    unfold countSafeUnexposed at hsafe
    rw [hcfg]
    simp only [List.length_cons]
    omega

theorem plantLoop_inv :
    ∀ (draws : List (ℕ × ℕ)) (s : GopherSweeper) (planted : List (ℕ × ℕ))
      (goal : ℕ) (s' : GopherSweeper),
      PlantInv s planted → planted.length ≤ goal →
      (∀ d ∈ draws, d.1 < s.config.size.1 ∧ d.2 < s.config.size.2) →
      plantLoop goal s planted draws = some s' →
      ∃ planted', PlantInv s' planted' ∧ planted'.length = goal ∧
        s'.config = s.config ∧ s'.remaining_cells = s.remaining_cells := by
  intro draws
  induction draws with
  | nil =>
    intro s planted goal s' hinv hlen hdr hloop
    unfold plantLoop at hloop
    split at hloop
    · cases hloop
    · rename_i hge
      injection hloop with hh
      subst hh
      exact ⟨planted, hinv, by omega, rfl, rfl⟩
  | cons dr rest ih =>
    intro s planted goal s' hinv hlen hdr hloop
    unfold plantLoop at hloop
    split at hloop
    · rename_i hlt
      split at hloop
      · exact ih s planted goal s' hinv hlen
          (fun d hd => hdr d (List.mem_cons_of_mem _ hd)) hloop
      · rename_i hnm
        have hdrb := hdr dr (List.mem_cons_self _ _)
        have hinv1 := plantGopher_inv hinv hnm hdrb.1 hdrb.2
        have hcfg : (plantGopher s dr).config = s.config := rfl
        obtain ⟨planted', hinv', hlen', hcfg', hrem'⟩ := ih (plantGopher s dr)
          (dr :: planted) goal s' hinv1 (by simp only [List.length_cons]; omega)
          (fun d hd => by
            rw [hcfg]
            exact hdr d (List.mem_cons_of_mem _ hd)) hloop
        exact ⟨planted', hinv', hlen', hcfg'.trans hcfg,
          hrem'.trans rfl⟩
    · rename_i hge
      injection hloop with hh
      subst hh
      exact ⟨planted, hinv, by omega, rfl, rfl⟩

theorem plantInv_start (config : GameConfig) (g : ℕ) :
    PlantInv
      { config := config
        remaining_cells := config.size.1 * config.size.2 - g
        field := List.replicate config.size.2
          (List.replicate config.size.1 default) } [] := by
  refine ⟨fieldWF_replicate _ _ _, List.nodup_nil,
    fun d hd => absurd hd (List.not_mem_nil d), ?_, ?_, ?_, ?_, ?_⟩
  · intro u hu v hv
    rw [show getCell (List.replicate config.size.2
      (List.replicate config.size.1 default)) u v = default from
      getCell_replicate hu hv default]
    constructor
    · intro hg; cases hg
    · intro hmem; exact absurd hmem (List.not_mem_nil _)
  · intro u hu v hv
    rw [show getCell (List.replicate config.size.2
      (List.replicate config.size.1 default)) u v = default from
      getCell_replicate hu hv default]
    exact ⟨rfl, rfl⟩
  · intro u hu v hv
    rw [show getCell (List.replicate config.size.2
      (List.replicate config.size.1 default)) u v = default from
      getCell_replicate hu hv default]
    rfl
  · show countP2 (fun c => c.has_gopher)
      (List.replicate config.size.2 (List.replicate config.size.1 default)) = 0
    rw [countP2_replicate]
    rfl
  · show countP2 cellSafeUnexposed
      (List.replicate config.size.2 (List.replicate config.size.1 default)) = _
    rw [countP2_replicate]
    rfl

theorem countP_adjacent_eq_card {s : GopherSweeper} {planted : List (ℕ × ℕ)}
    (hnd : planted.Nodup)
    (hbd : ∀ d ∈ planted, d.1 < s.config.size.1 ∧ d.2 < s.config.size.2)
    (hgopher : ∀ u, u < s.config.size.1 → ∀ v, v < s.config.size.2 →
      ((getCell s.field u v).has_gopher = true ↔ (u, v) ∈ planted))
    (x y : ℕ) :
    planted.countP (fun d => decide (adjacent (x, y) d)) =
      specNeighborGophers s x y := by
  unfold specNeighborGophers
  have hset : (Finset.range s.config.size.1 ×ˢ
      Finset.range s.config.size.2).filter
      (fun p => adjacent (x, y) p ∧
        (getCell s.field p.1 p.2).has_gopher = true) =
      planted.toFinset.filter (fun p => adjacent (x, y) p) := by
    ext p
    simp only [Finset.mem_filter, Finset.mem_product, Finset.mem_range,
      List.mem_toFinset]
    constructor
    · rintro ⟨⟨hp1, hp2⟩, hadj, hg⟩
      exact ⟨(hgopher p.1 hp1 p.2 hp2).mp hg, hadj⟩
    · rintro ⟨hp, hadj⟩
      have hb := hbd p hp
      exact ⟨⟨hb.1, hb.2⟩, hadj, (hgopher p.1 hb.1 p.2 hb.2).mpr hp⟩
  rw [hset]
  have hfil : planted.toFinset.filter (fun p => adjacent (x, y) p) =
      (planted.filter (fun d => decide (adjacent (x, y) d))).toFinset := by
    ext p
    simp [List.mem_filter, List.mem_toFinset]
  rw [hfil]
  rw [List.toFinset_card_of_nodup (hnd.filter _)]
  rw [List.countP_eq_length_filter]

/-- Every terminating run of GopherSweeper::new yields a state satisfying
the planting invariants with exactly gophers() planted coordinates. -/
theorem new_planted {config : GameConfig} {draws : List (ℕ × ℕ)}
    {s0 : GopherSweeper}
    (hdr : ∀ d ∈ draws, d.1 < config.size.1 ∧ d.2 < config.size.2)
    (hnew : GopherSweeper.new config draws = some s0) :
    ∃ planted, PlantInv s0 planted ∧ planted.length = config.gophers ∧
      s0.config = config ∧
      s0.remaining_cells = config.size.1 * config.size.2 - config.gophers := by
  unfold GopherSweeper.new at hnew
  obtain ⟨planted', hinv', hlen', hcfg', hrem'⟩ :=
    plantLoop_inv draws _ [] config.gophers s0 (plantInv_start config _)
      (Nat.zero_le _) (fun d hd => hdr d hd) hnew
  exact ⟨planted', hinv', hlen', hcfg', hrem'⟩

/-- After any successful construction the combined game invariant holds,
and the matrix carries exactly gophers() gophers with correct neighbour
counts. -/
theorem new_GameInv {config : GameConfig} {draws : List (ℕ × ℕ)}
    {s0 : GopherSweeper}
    (hdr : ∀ d ∈ draws, d.1 < config.size.1 ∧ d.2 < config.size.2)
    (hnew : GopherSweeper.new config draws = some s0) :
    GameInv s0 ∧ gopherCount s0 = config.gophers ∧ s0.config = config ∧
      s0.remaining_cells = config.size.1 * config.size.2 - config.gophers := by
  obtain ⟨planted, hinv, hlen, hcfg, hrem⟩ := new_planted hdr hnew
  obtain ⟨hwf, hnd, hbd, hgopher, hflags, hcounts, hgc, hsafe⟩ := hinv
  refine ⟨⟨hwf, ?_, ?_, ?_⟩, by rw [hgc, hlen], hcfg, hrem⟩
  · intro u hu v hv
    rw [hcounts u hu v hv]
    exact countP_adjacent_eq_card hnd hbd hgopher u v
  · show s0.remaining_cells = countSafeUnexposed s0
    rw [hrem, hsafe, hlen, hcfg]
  · intro u hu v hv hexp
    exact absurd hexp (by rw [(hflags u hu v hv).1]; exact Bool.false_ne_true)

theorem getCell_of_getCell? {f : List (List Cell)} {x y : ℕ} {cell : Cell}
    (hcell : getCell? f x y = some cell) : getCell f x y = cell := by
  unfold getCell
  rw [hcell]
  rfl

/-- Inversion of toggle_flag: either the cell was exposed and nothing
changed, or the flag bit of that cell alone was flipped. -/
theorem toggle_inv {s : GopherSweeper} {x y : ℕ} {r : ToggleFlagResult}
    {s' : GopherSweeper} (ht : s.toggle_flag x y = some (r, s')) :
    ∃ cell, getCell? s.field x y = some cell ∧
      ((cell.is_exposed = true ∧ r = .CellWasExposed ∧ s' = s) ∨
       (cell.is_exposed = false ∧
        s'.field = setCell s.field x y
          ({ cell with is_flagged := !cell.is_flagged }) ∧
        s'.remaining_cells = s.remaining_cells ∧
        s'.config = s.config ∧
        r = (if cell.is_flagged then .Disabled else .Enabled))) := by
  cases hcell : getCell? s.field x y with
  | none =>
    simp only [GopherSweeper.toggle_flag, hcell] at ht
    exact Option.noConfusion ht
  | some cell =>
    simp only [GopherSweeper.toggle_flag, hcell] at ht
    refine ⟨cell, rfl, ?_⟩
    by_cases hexp : cell.is_exposed = true
    · rw [if_pos hexp] at ht
      injection ht with hh
      injection hh with hr hs
      exact Or.inl ⟨hexp, hr.symm, hs.symm⟩
    · rw [if_neg hexp] at ht
      injection ht with hh
      injection hh with hr hs
      refine Or.inr ⟨Bool.eq_false_iff.mpr hexp, by rw [← hs], by rw [← hs],
        by rw [← hs], ?_⟩
      rw [← hr]
      cases hfl : cell.is_flagged
      · simp [hfl]
      · simp [hfl]

/-- Inversion of try_expose_cell: either one of the three early returns
fired and the state is untouched, or the cell was unexposed, unflagged and
gopher-free and the flood fill ran. -/
theorem try_expose_inv {s : GopherSweeper} {x y : ℕ} {r : ExposeResult}
    {s' : GopherSweeper} (ht : s.try_expose_cell x y = some (r, s')) :
    ∃ cell, getCell? s.field x y = some cell ∧
      ((s' = s ∧
        (r = .WasAlreadyExposed ∨ r = .IsFlagged ∨ r = .HasGopher)) ∨
       (cell.is_exposed = false ∧ cell.is_flagged = false ∧
        cell.has_gopher = false ∧
        expose_recursively (s.config.size.1 * s.config.size.2) s x y =
          some s' ∧
        r = (if s'.remaining_cells = 0 then ExposeResult.Win
          else ExposeResult.Exposed))) := by
  cases hcell : getCell? s.field x y with
  | none =>
    simp only [GopherSweeper.try_expose_cell, hcell] at ht
    exact Option.noConfusion ht
  | some cell =>
    simp only [GopherSweeper.try_expose_cell, hcell] at ht
    refine ⟨cell, rfl, ?_⟩
    by_cases hexp : cell.is_exposed = true
    · rw [if_pos hexp] at ht
      injection ht with hh
      injection hh with hr hs
      exact Or.inl ⟨hs.symm, Or.inl hr.symm⟩
    · rw [if_neg hexp] at ht
      by_cases hfl : cell.is_flagged = true
      · rw [if_pos hfl] at ht
        injection ht with hh
        injection hh with hr hs
        exact Or.inl ⟨hs.symm, Or.inr (Or.inl hr.symm)⟩
      · rw [if_neg hfl] at ht
        by_cases hg : cell.has_gopher = true
        · rw [if_pos hg] at ht
          injection ht with hh
          injection hh with hr hs
          exact Or.inl ⟨hs.symm, Or.inr (Or.inr hr.symm)⟩
        · rw [if_neg hg] at ht
          cases hrec : expose_recursively
              (s.config.size.1 * s.config.size.2) s x y with
          | none =>
            simp only [hrec] at ht
            exact Option.noConfusion ht
          | some s1 =>
            simp only [hrec] at ht
            by_cases hzero : s1.remaining_cells = 0
            · rw [if_pos hzero] at ht
              injection ht with hh
              injection hh with hr hs
              refine Or.inr ⟨Bool.eq_false_iff.mpr hexp,
                Bool.eq_false_iff.mpr hfl, Bool.eq_false_iff.mpr hg,
                ?_, ?_⟩
              · rw [← hs]
              · rw [← hs, if_pos hzero]
                exact hr.symm
            · rw [if_neg hzero] at ht
              injection ht with hh
              injection hh with hr hs
              refine Or.inr ⟨Bool.eq_false_iff.mpr hexp,
                Bool.eq_false_iff.mpr hfl, Bool.eq_false_iff.mpr hg,
                ?_, ?_⟩
              · rw [← hs]
              · rw [← hs, if_neg hzero]
                exact hr.symm

theorem specNeighborGophers_congr {s s' : GopherSweeper}
    (hcfg : s'.config = s.config)
    (hg : ∀ a b : ℕ, (getCell s'.field a b).has_gopher =
      (getCell s.field a b).has_gopher) (x y : ℕ) :
    specNeighborGophers s' x y = specNeighborGophers s x y := by
  unfold specNeighborGophers
  rw [hcfg]
  congr 1
  apply Finset.filter_congr
  intro p _
  rw [hg p.1 p.2]

/-- GameInv survives a toggle_flag call. -/
theorem gameInv_toggle {s : GopherSweeper} {x y : ℕ} {r : ToggleFlagResult}
    {s' : GopherSweeper} (hinv : GameInv s)
    (ht : s.toggle_flag x y = some (r, s')) : GameInv s' := by
  obtain ⟨hwf, hcc, hrem, hfc⟩ := hinv
  obtain ⟨cell, hcell, hcase⟩ := toggle_inv ht
  rcases hcase with ⟨_, _, hs⟩ | ⟨hnexp, hfield, hrems, hcfg, _⟩
  · rw [hs]; exact ⟨hwf, hcc, hrem, hfc⟩
  · have hin : x < s.config.size.1 ∧ y < s.config.size.2 := by
      rw [← getCell?_isSome_iff hwf x y, hcell]; rfl
    have hget : getCell s.field x y = cell := getCell_of_getCell? hcell
    have hwf' : Wellformed s' := by
      unfold Wellformed
      rw [hcfg, hfield]
      exact fieldWF_setCell hwf x y _
    have hpt : ∀ a b : ℕ,
        (getCell s'.field a b).has_gopher = (getCell s.field a b).has_gopher ∧
        (getCell s'.field a b).is_exposed = (getCell s.field a b).is_exposed ∧
        (getCell s'.field a b).surrounding_gophers =
          (getCell s.field a b).surrounding_gophers := by
      intro a b
      rw [hfield]
      by_cases hab : a = x ∧ b = y
      · obtain ⟨h1, h2⟩ := hab
        subst h1
        subst h2
        rw [getCell_setCell_self hwf hin.1 hin.2, hget]
        exact ⟨rfl, rfl, rfl⟩
      · rw [getCell_setCell_ne _ hab]
        exact ⟨rfl, rfl, rfl⟩
    refine ⟨hwf', ?_, ?_, ?_⟩
    · intro u hu v hv
      rw [hcfg] at hu hv
      rw [(hpt u v).2.2]
      rw [specNeighborGophers_congr hcfg (fun a b => (hpt a b).1) u v]
      exact hcc u hu v hv
    · show s'.remaining_cells = countSafeUnexposed s'
      have hcnt : countSafeUnexposed s' = countSafeUnexposed s := by
        unfold countSafeUnexposed
        rw [hfield]
        have hbal := countP2_setCell cellSafeUnexposed hwf hin.1 hin.2
          ({ cell with is_flagged := !cell.is_flagged })
        have heq : cellSafeUnexposed
            ({ cell with is_flagged := !cell.is_flagged })
            = cellSafeUnexposed (getCell s.field x y) := by
          rw [hget]
          rfl
        rw [heq] at hbal
        omega
      rw [hrems, hcnt]
      exact hrem
    · intro a ha b hb hexp hz u hu v hv hadj
      rw [hcfg] at ha hb hu hv
      rw [(hpt a b).2.1] at hexp
      rw [(hpt a b).2.2] at hz
      rw [(hpt u v).2.1]
      exact hfc a ha b hb hexp hz u hu v hv hadj

/-- GameInv survives a try_expose_cell call. -/
theorem gameInv_expose {s : GopherSweeper} {x y : ℕ} {r : ExposeResult}
    {s' : GopherSweeper} (hinv : GameInv s)
    (ht : s.try_expose_cell x y = some (r, s')) : GameInv s' := by
  obtain ⟨hwf, hcc, hrem, hfc⟩ := hinv
  obtain ⟨cell, hcell, hcase⟩ := try_expose_inv ht
  rcases hcase with ⟨hs, _⟩ | ⟨hnexp, hnfl, hng, hrec, _⟩
  · rw [hs]; exact ⟨hwf, hcc, hrem, hfc⟩
  · have hin : x < s.config.size.1 ∧ y < s.config.size.2 := by
      rw [← getCell?_isSome_iff hwf x y, hcell]; rfl
    have hget : getCell s.field x y = cell := getCell_of_getCell? hcell
    have hfr := exposeRec_frame _ s x y s' hrec
    have hwf' : Wellformed s' := exposeFrame_wf hfr hwf
    have hcfg : s'.config = s.config := hfr.1
    refine ⟨hwf', ?_, ?_, ?_⟩
    · intro u hu v hv
      rw [hcfg] at hu hv
      rw [(hfr.2.2.2 u v).2.2.1]
      rw [specNeighborGophers_congr hcfg
        (fun a b => (hfr.2.2.2 a b).2.1) u v]
      exact hcc u hu v hv
    · exact exposeRec_remaining _ s x y s' hwf
        (noGopherNearZero_of_countsCorrect hcc) hin.1 hin.2
        (hget ▸ hnexp) (hget ▸ hng) hrec hrem
    · have hfcX := (floodClosed_iff_X s).mp hfc
      have := exposeRec_complete _ s x y s' (fun _ => False) hwf hin.1 hin.2
        hfcX hrec
      exact (floodClosed_iff_X s').mpr this.2

theorem gameInv_step {s s' : GopherSweeper} (hinv : GameInv s)
    (hstep : GameStep s s') : GameInv s' := by
  cases hstep with
  | flag x y r s2 ht => exact gameInv_toggle hinv ht
  | expose x y r s2 ht => exact gameInv_expose hinv ht

theorem gameInv_reach {s s' : GopherSweeper} (hinv : GameInv s)
    (hreach : Relation.ReflTransGen GameStep s s') : GameInv s' := by
  induction hreach with
  | refl => exact hinv
  | tail hab hbc ih => exact gameInv_step ih hbc

/-- Setting an index of a list to the element already there leaves the list
unchanged. -/
theorem list_set_self {α : Type} (l : List α) (i : ℕ) (h : i < l.length) :
    l.set i l[i] = l := by
  apply List.ext_getElem?
  intro n
  by_cases hn : n = i
  · subst hn
    rw [List.getElem?_set_eq_of_lt _ h, List.getElem?_eq_getElem h]
  · rw [List.getElem?_set_ne (fun hh => hn hh.symm)]

/-- Two writes to the same coordinates collapse to the second. -/
theorem setCell_setCell {f : List (List Cell)} {x y : ℕ} (c c2 : Cell)
    (hy : y < f.length) :
    setCell (setCell f x y c) x y c2 = setCell f x y c2 := by
  unfold setCell
  have hgd : f.getD y [] = f[y] := by
    simp [List.getD_eq_getElem?_getD, List.getElem?_eq_getElem hy]
  rw [hgd]
  have hgd2 : (f.set y (f[y].set x c)).getD y [] = f[y].set x c := by
    simp [List.getD_eq_getElem?_getD, List.getElem?_set_eq_of_lt _ hy]
  rw [hgd2, List.set_set, List.set_set]

/-- Writing back the cell read at in-bounds coordinates is the identity. -/
theorem setCell_restore {w h : ℕ} {f : List (List Cell)} (hf : fieldWF w h f)
    {x y : ℕ} (hx : x < w) (hy : y < h) :
    setCell f x y (getCell f x y) = f := by
  obtain ⟨hlen, hrows⟩ := hf
  have hy2 : y < f.length := by omega
  have hgd : f.getD y [] = f[y] := by
    simp [List.getD_eq_getElem?_getD, List.getElem?_eq_getElem hy2]
  have hw : (f[y]).length = w := hrows _ (List.getElem_mem hy2)
  have hx2 : x < (f[y]).length := by omega
  have hcell : getCell f x y = (f[y])[x] := by
    simp [getCell, getCell?, List.getElem?_eq_getElem hy2,
      List.getElem?_eq_getElem hx2]
  unfold setCell
  rw [hgd, hcell, list_set_self _ _ hx2, list_set_self _ _ hy2]

/-- A positive matrix count is witnessed by an in-bounds cell satisfying the
predicate. -/
theorem countP2_ex {p : Cell → Bool} :
    ∀ {w : ℕ} (f : List (List Cell)), (∀ row ∈ f, row.length = w) →
      0 < countP2 p f →
      ∃ x, x < w ∧ ∃ y, y < f.length ∧ p (getCell f x y) = true := by
  intro w f
  induction f with
  | nil => intro _ hpos; simp [countP2] at hpos
  | cons row tl ih =>
    intro hrows hpos
    simp only [countP2, List.map_cons, List.sum_cons] at hpos
    rcases Nat.lt_or_ge 0 (row.countP p) with hrow | hrow
    · rw [List.countP_pos_iff] at hrow
      obtain ⟨a, hmem, hpa⟩ := hrow
      obtain ⟨i, hi, hia⟩ := List.getElem_of_mem hmem
      refine ⟨i, ?_, 0, by simp, ?_⟩
      · rw [← hrows row (List.mem_cons_self _ _)]; exact hi
      · have : getCell (row :: tl) i 0 = row[i] := by
          simp [getCell, getCell?, List.getElem?_eq_getElem hi]
        rw [this, hia]; exact hpa
    · have hpos2 : 0 < countP2 p tl := by
        unfold countP2; omega
      obtain ⟨x, hx, y, hy, hp⟩ :=
        ih (fun r hr => hrows r (List.mem_cons_of_mem _ hr)) hpos2
      refine ⟨x, hx, y + 1, by simpa using hy, ?_⟩
      have : getCell (row :: tl) x (y + 1) = getCell tl x y := by
        simp [getCell, getCell?]
      rw [this]; exact hp

/-- In a well-formed state the safe-unexposed count vanishes exactly when
every in-bounds gopher-free cell is exposed. -/
theorem countSafeUnexposed_eq_zero_iff {s : GopherSweeper}
    (hwf : Wellformed s) :
    countSafeUnexposed s = 0 ↔
      ∀ x, x < s.config.size.1 → ∀ y, y < s.config.size.2 →
        (getCell s.field x y).has_gopher = false →
        (getCell s.field x y).is_exposed = true := by
  constructor
  · intro h0 x hx y hy hng
    by_contra hne
    have hp : cellSafeUnexposed (getCell s.field x y) = true := by
      simp [cellSafeUnexposed, hng, Bool.eq_false_iff.mpr hne]
    have := countP2_pos hwf hx hy hp
    unfold countSafeUnexposed at h0
    omega
  · intro hall
    by_contra hne
    have hpos : 0 < countP2 cellSafeUnexposed s.field := by
      unfold countSafeUnexposed at hne
      omega
    obtain ⟨x, hx, y, hy, hp⟩ := countP2_ex s.field hwf.2 hpos
    have hyh : y < s.config.size.2 := by rw [← hwf.1]; exact hy
    simp only [cellSafeUnexposed, Bool.and_eq_true, Bool.not_eq_true'] at hp
    have := hall x hx y hyh hp.1
    rw [hp.2] at this
    exact Bool.noConfusion this

/-- Cells of the flood-fill region are exposed once the fill has run: the
target state is flood-closed, so exposure propagates along every reach
step. -/
theorem reaches_exposed {s s2 : GopherSweeper} (hfr : ExposeFrame s s2)
    (hfc : floodClosed s2) {x y : ℕ}
    (hxy : (getCell s2.field x y).is_exposed = true) :
    ∀ c : ℕ × ℕ, Reaches s (x, y) c → c.1 < s.config.size.1 →
      c.2 < s.config.size.2 → (getCell s2.field c.1 c.2).is_exposed = true := by
  intro c hr
  induction hr with
  | refl => intro _ _; exact hxy
  | step b d hb hb1 hb2 hz hadj hd1 hd2 ih =>
    intro _ _
    have hbexp := ih hb1 hb2
    have hcfg := hfr.1
    have hzs : (getCell s2.field b.1 b.2).surrounding_gophers = 0 := by
      rw [(hfr.2.2.2 b.1 b.2).2.2.1]; exact hz
    exact hfc b.1 (by rw [hcfg]; exact hb1) b.2 (by rw [hcfg]; exact hb2)
      hbexp hzs d.1 (by rw [hcfg]; exact hd1) d.2 (by rw [hcfg]; exact hd2)
      hadj

/-- A cell exposed and flagged at once stays so across any single game
step: toggle_flag refuses exposed cells and the flood fill never clears a
flag or unexposes a cell. -/
theorem step_keeps_cell {s s2 : GopherSweeper} (hstep : GameStep s s2)
    {x y : ℕ} (hexp : (getCell s.field x y).is_exposed = true)
    (hfl : (getCell s.field x y).is_flagged = true) :
    (getCell s2.field x y).is_exposed = true ∧
      (getCell s2.field x y).is_flagged = true := by
  cases hstep with
  | flag a b r t ht =>
    obtain ⟨cell, hcell, hcase⟩ := toggle_inv ht
    rcases hcase with ⟨_, _, hs⟩ | ⟨hnexp, hfield, _, _, _⟩
    · rw [hs]; exact ⟨hexp, hfl⟩
    · by_cases hxy : x = a ∧ y = b
      · exfalso
        obtain ⟨hx, hy⟩ := hxy
        subst hx; subst hy
        rw [getCell_of_getCell? hcell] at hexp
        rw [hexp] at hnexp
        exact Bool.noConfusion hnexp
      · rw [hfield, getCell_setCell_ne _ hxy]
        exact ⟨hexp, hfl⟩
  | expose a b r t ht =>
    obtain ⟨cell, hcell, hcase⟩ := try_expose_inv ht
    rcases hcase with ⟨hs, _⟩ | ⟨_, _, _, hrec, _⟩
    · rw [hs]; exact ⟨hexp, hfl⟩
    · have hfr := exposeRec_frame _ s a b s2 hrec
      have hle := hfr.2.2.2 x y
      exact ⟨hle.2.2.2 hexp, by rw [hle.1]; exact hfl⟩

/-- A tiny custom configuration used for concrete runs: a 3 by 1 field with
a zero gopher percentage, so construction plants nothing. -/
def demoConfig : GameConfig :=
  ⟨FieldSize.Custom 3 1, Difficulty.Custom 0⟩

/-- The state GopherSweeper.new builds from demoConfig: three default cells
and three remaining safe cells. -/
def demo0 : GopherSweeper :=
  { config := demoConfig, remaining_cells := 3,
    field := [[⟨false, false, false, 0⟩, ⟨false, false, false, 0⟩,
      ⟨false, false, false, 0⟩]] }

/-- demo0 after toggle_flag on cell (2, 0): that cell is flagged. -/
def demo1 : GopherSweeper :=
  { config := demoConfig, remaining_cells := 3,
    field := [[⟨false, false, false, 0⟩, ⟨false, false, false, 0⟩,
      ⟨false, true, false, 0⟩]] }

/-- demo1 after try_expose_cell on (0, 0): the flood fill exposes all three
cells, cell (2, 0) keeps its flag, and the game is won. -/
def demo2 : GopherSweeper :=
  { config := demoConfig, remaining_cells := 0,
    field := [[⟨true, false, false, 0⟩, ⟨true, false, false, 0⟩,
      ⟨true, true, false, 0⟩]] }

/-- The custom gophers_percentage 0.33333334f32 (the f32 nearest one third,
11184811 / 2 ^ 25) as a scaled natural. -/
def thirdF32 : ℕ := 11184811 * 2 ^ 124

/-- A configuration on which the f32 arithmetic of gophers() rounds below
the mathematical ceiling: 3 cells at the f32 density nearest one third. -/
def cfgThird : GameConfig :=
  ⟨FieldSize.Custom 3 1, Difficulty.Custom thirdF32⟩

/-- Reduction of specItemCount to an integer ceiling computation. -/
theorem specItemCount_eq {c : GameConfig} {z : ℕ}
    (h : ⌈specDensity c.difficulty * ((c.size.1 * c.size.2 : ℕ) : ℚ)⌉ =
      (z : ℤ)) : specItemCount c = z := by
  unfold specItemCount
  rw [h]
  exact Int.toNat_natCast z

instance (s : GopherSweeper) : Decidable (Wellformed s) := by
  unfold Wellformed fieldWF; infer_instance

instance (s : GopherSweeper) : Decidable (countsCorrect s) := by
  unfold countsCorrect; infer_instance

instance (s : GopherSweeper) : Decidable (remainingInv s) := by
  unfold remainingInv; infer_instance

set_option synthInstance.maxSize 512 in
instance (s : GopherSweeper) : Decidable (floodClosed s) := by
  unfold floodClosed; infer_instance

instance (s : GopherSweeper) : Decidable (GameInv s) := by
  unfold GameInv; infer_instance

/-- A 2 by 1 field at custom percentage 0.5f32, hence one gopher. -/
def cfgHalf : GameConfig := ⟨FieldSize.Custom 2 1, Difficulty.Custom (2 ^ 148)⟩

/-- The state GopherSweeper.new builds from cfgHalf and the draw stream
[(1, 0)]: a gopher at (1, 0) and a count of 1 at (0, 0). -/
def demoHalf : GopherSweeper :=
  { config := cfgHalf, remaining_cells := 1,
    field := [[⟨false, false, false, 1⟩, ⟨false, false, true, 0⟩]] }

/-- The flag flip of toggle_flag on the cell it read. -/
def toggledCell (c : Cell) : Cell := { c with is_flagged := !c.is_flagged }

/-- The state toggle_flag writes back on an unexposed cell: the same state
with the flag bit of cell (x, y) flipped. -/
def toggledState (s : GopherSweeper) (x y : ℕ) : GopherSweeper :=
  { s with field := setCell s.field x y (toggledCell (getCell s.field x y)) }

theorem toggledCell_toggledCell (c : Cell) : toggledCell (toggledCell c) = c := by
  cases c; simp [toggledCell]

/-- On an unexposed in-bounds cell toggle_flag flips exactly that flag. -/
theorem toggle_flag_unexposed {s : GopherSweeper} {x y : ℕ}
    (hwf : Wellformed s) (hx : x < s.config.size.1) (hy : y < s.config.size.2)
    (hexp : (getCell s.field x y).is_exposed = false) :
    s.toggle_flag x y =
      some (if (getCell s.field x y).is_flagged then ToggleFlagResult.Disabled
        else ToggleFlagResult.Enabled, toggledState s x y) := by
  have hsome := getCell?_eq_some_of_lt hwf hx hy
  cases hfl : (getCell s.field x y).is_flagged with
  | false =>
    simp [GopherSweeper.toggle_flag, hsome, hexp, hfl, toggledState, toggledCell]
  | true =>
    simp [GopherSweeper.toggle_flag, hsome, hexp, hfl, toggledState, toggledCell]

/-- Toggling the same cell twice restores the state exactly. -/
theorem toggledState_toggledState {s : GopherSweeper} {x y : ℕ}
    (hwf : Wellformed s) (hx : x < s.config.size.1)
    (hy : y < s.config.size.2) :
    toggledState (toggledState s x y) x y = s := by
  have hy2 : y < s.field.length := by rw [hwf.1]; exact hy
  unfold toggledState
  rw [getCell_setCell_self hwf hx hy, toggledCell_toggledCell,
    setCell_setCell _ _ hy2, setCell_restore hwf hx hy]

set_option maxRecDepth 8192 in
/-- Claim C1, counterexample: gophers() is not the mathematical ceiling of
density times width times height for every configuration.  On a Custom 3 by
1 field with custom percentage 0.33333334f32 (the f32 nearest one third)
the f32 product 0.33333334 * 3.0 rounds down to exactly 1.0, so the code
computes 1 gopher, while the mathematical ceiling is 2. -/
theorem C1_counterexample :
    GameConfig.gophers cfgThird = 1 ∧ specItemCount cfgThird = 2 ∧
      GameConfig.gophers cfgThird ≠ specItemCount cfgThird := by
  have h1 : GameConfig.gophers cfgThird = 1 := by decide
  have h2 : specItemCount cfgThird = 2 := specItemCount_eq (by
    rw [Int.ceil_eq_iff]
    norm_num [specDensity, GameConfig.size, cfgThird, thirdF32])
  exact ⟨h1, h2, by rw [h1, h2]; decide⟩

/-- Claim C1, amended: on each of the nine preset configurations (Small,
Medium, Big crossed with Easy, Normal, Hard) gophers() equals the
mathematical ceiling of density times width times height, and the Small
preset with Easy difficulty yields 8 gophers; for Custom percentages the
ceiling equality can fail by f32 rounding (see the counterexample). -/
theorem C1_preset_item_count :
    GameConfig.gophers ⟨FieldSize.Small, Difficulty.Easy⟩ =
      specItemCount ⟨FieldSize.Small, Difficulty.Easy⟩ ∧
    GameConfig.gophers ⟨FieldSize.Small, Difficulty.Normal⟩ =
      specItemCount ⟨FieldSize.Small, Difficulty.Normal⟩ ∧
    GameConfig.gophers ⟨FieldSize.Small, Difficulty.Hard⟩ =
      specItemCount ⟨FieldSize.Small, Difficulty.Hard⟩ ∧
    GameConfig.gophers ⟨FieldSize.Medium, Difficulty.Easy⟩ =
      specItemCount ⟨FieldSize.Medium, Difficulty.Easy⟩ ∧
    GameConfig.gophers ⟨FieldSize.Medium, Difficulty.Normal⟩ =
      specItemCount ⟨FieldSize.Medium, Difficulty.Normal⟩ ∧
    GameConfig.gophers ⟨FieldSize.Medium, Difficulty.Hard⟩ =
      specItemCount ⟨FieldSize.Medium, Difficulty.Hard⟩ ∧
    GameConfig.gophers ⟨FieldSize.Big, Difficulty.Easy⟩ =
      specItemCount ⟨FieldSize.Big, Difficulty.Easy⟩ ∧
    GameConfig.gophers ⟨FieldSize.Big, Difficulty.Normal⟩ =
      specItemCount ⟨FieldSize.Big, Difficulty.Normal⟩ ∧
    GameConfig.gophers ⟨FieldSize.Big, Difficulty.Hard⟩ =
      specItemCount ⟨FieldSize.Big, Difficulty.Hard⟩ ∧
    GameConfig.gophers ⟨FieldSize.Small, Difficulty.Easy⟩ = 8 := by
  have hse : specItemCount ⟨FieldSize.Small, Difficulty.Easy⟩ = 8 :=
    specItemCount_eq (by
      rw [Int.ceil_eq_iff]; norm_num [specDensity, GameConfig.size, SMALL])
  have hsn : specItemCount ⟨FieldSize.Small, Difficulty.Normal⟩ = 12 :=
    specItemCount_eq (by
      rw [Int.ceil_eq_iff]; norm_num [specDensity, GameConfig.size, SMALL])
  have hsh : specItemCount ⟨FieldSize.Small, Difficulty.Hard⟩ = 16 :=
    specItemCount_eq (by
      rw [Int.ceil_eq_iff]; norm_num [specDensity, GameConfig.size, SMALL])
  have hme : specItemCount ⟨FieldSize.Medium, Difficulty.Easy⟩ = 22 :=
    specItemCount_eq (by
      rw [Int.ceil_eq_iff]; norm_num [specDensity, GameConfig.size, MEDIUM])
  have hmn : specItemCount ⟨FieldSize.Medium, Difficulty.Normal⟩ = 33 :=
    specItemCount_eq (by
      rw [Int.ceil_eq_iff]; norm_num [specDensity, GameConfig.size, MEDIUM])
  have hmh : specItemCount ⟨FieldSize.Medium, Difficulty.Hard⟩ = 44 :=
    specItemCount_eq (by
      rw [Int.ceil_eq_iff]; norm_num [specDensity, GameConfig.size, MEDIUM])
  have hbe : specItemCount ⟨FieldSize.Big, Difficulty.Easy⟩ = 48 :=
    specItemCount_eq (by
      rw [Int.ceil_eq_iff]; norm_num [specDensity, GameConfig.size, BIG])
  have hbn : specItemCount ⟨FieldSize.Big, Difficulty.Normal⟩ = 72 :=
    specItemCount_eq (by
      rw [Int.ceil_eq_iff]; norm_num [specDensity, GameConfig.size, BIG])
  have hbh : specItemCount ⟨FieldSize.Big, Difficulty.Hard⟩ = 96 :=
    specItemCount_eq (by
      rw [Int.ceil_eq_iff]; norm_num [specDensity, GameConfig.size, BIG])
  refine ⟨by rw [hse]; decide, by rw [hsn]; decide, by rw [hsh]; decide,
    by rw [hme]; decide, by rw [hmn]; decide, by rw [hmh]; decide,
    by rw [hbe]; decide, by rw [hbn]; decide, by rw [hbh]; decide, by decide⟩

/-- Claim C2: after construction remaining_cells equals width times height
minus gophers(); after any sequence of toggle_flag and try_expose_cell
steps it equals the number of gopher-free unexposed cells, and it is zero
exactly when every in-bounds gopher-free cell is exposed. -/
theorem C2_remaining_cells {config : GameConfig} {draws : List (ℕ × ℕ)}
    {s0 s : GopherSweeper}
    (hdr : ∀ d ∈ draws, d.1 < config.size.1 ∧ d.2 < config.size.2)
    (hnew : GopherSweeper.new config draws = some s0)
    (hreach : Relation.ReflTransGen GameStep s0 s) :
    s0.remaining_cells = config.size.1 * config.size.2 - config.gophers ∧
    s.remaining_cells = countSafeUnexposed s ∧
    (s.remaining_cells = 0 ↔
      ∀ x, x < s.config.size.1 → ∀ y, y < s.config.size.2 →
        (getCell s.field x y).has_gopher = false →
        (getCell s.field x y).is_exposed = true) := by
  obtain ⟨hinv0, _, _, hrem0⟩ := new_GameInv hdr hnew
  have hinv := gameInv_reach hinv0 hreach
  have hrem : s.remaining_cells = countSafeUnexposed s := hinv.2.2.1
  refine ⟨hrem0, hrem, ?_⟩
  rw [hrem]
  exact countSafeUnexposed_eq_zero_iff hinv.1

set_option maxRecDepth 8192 in
/-- Concrete run of C2_remaining_cells: the 3 by 1 demo configuration with
an empty draw stream, at the freshly constructed state. -/
theorem C2_remaining_cells_witness :
    demo0.remaining_cells =
      demoConfig.size.1 * demoConfig.size.2 - demoConfig.gophers ∧
    demo0.remaining_cells = countSafeUnexposed demo0 ∧
    (demo0.remaining_cells = 0 ↔
      ∀ x, x < demo0.config.size.1 → ∀ y, y < demo0.config.size.2 →
        (getCell demo0.field x y).has_gopher = false →
        (getCell demo0.field x y).is_exposed = true) :=
  C2_remaining_cells (fun d hd => absurd hd (List.not_mem_nil d))
    (by decide) Relation.ReflTransGen.refl

/-- Claim C3: from an in-bounds unexposed, unflagged, gopher-free cell with
zero stored count, try_expose_cell succeeds and exposes exactly the cells
of the flood region Reaches s (x, y) (the connected zero-count region with
its border) on top of the already exposed ones, and changes no flag, gopher
bit or stored count; in particular flagged neighbours are exposed all the
same. -/
theorem C3_flood_region {s : GopherSweeper} {x y : ℕ} (hinv : GameInv s)
    (hx : x < s.config.size.1) (hy : y < s.config.size.2)
    (hz : (getCell s.field x y).surrounding_gophers = 0)
    (hexp : (getCell s.field x y).is_exposed = false)
    (hfl : (getCell s.field x y).is_flagged = false)
    (hg : (getCell s.field x y).has_gopher = false) :
    ∃ r s2, s.try_expose_cell x y = some (r, s2) ∧
      (∀ u v : ℕ, u < s.config.size.1 → v < s.config.size.2 →
        ((getCell s2.field u v).is_exposed = true ↔
          ((getCell s.field u v).is_exposed = true ∨
            Reaches s (x, y) (u, v)))) ∧
      (∀ u v : ℕ,
        (getCell s2.field u v).is_flagged = (getCell s.field u v).is_flagged ∧
        (getCell s2.field u v).has_gopher = (getCell s.field u v).has_gopher ∧
        (getCell s2.field u v).surrounding_gophers =
          (getCell s.field u v).surrounding_gophers) := by
  obtain ⟨hwf, hcc, hrem, hfc⟩ := hinv
  obtain ⟨s2, hrec, _⟩ := exposeRec_total (s.config.size.1 * s.config.size.2)
    s x y hwf hx hy hexp (countP2_le hwf _)
  have hsome : getCell? s.field x y = some (getCell s.field x y) :=
    getCell?_eq_some_of_lt hwf hx hy
  have hfr := exposeRec_frame _ s x y s2 hrec
  have hcX := exposeRec_complete _ s x y s2 (fun _ => False) hwf hx hy
    ((floodClosed_iff_X s).mp hfc) hrec
  have hfc2 : floodClosed s2 := (floodClosed_iff_X s2).mpr hcX.2
  refine ⟨if s2.remaining_cells = 0 then ExposeResult.Win
    else ExposeResult.Exposed, s2, ?_, ?_, fun u v =>
      ⟨(hfr.2.2.2 u v).1, (hfr.2.2.2 u v).2.1, (hfr.2.2.2 u v).2.2.1⟩⟩
  · by_cases hz0 : s2.remaining_cells = 0 <;>
      simp [GopherSweeper.try_expose_cell, hsome, hexp, hfl, hg, hrec, hz0]
  · intro u v hu hv
    constructor
    · intro hexp2
      exact exposeRec_sound _ s x y s2 hx hy hrec u v hexp2
    · intro hcase
      rcases hcase with hold | hr
      · exact (hfr.2.2.2 u v).2.2.2 hold
      · exact reaches_exposed hfr hfc2 hcX.1 (u, v) hr hu hv

/-- Concrete run of C3_flood_region: exposing (0, 0) of the demo state with
a flag on (2, 0). -/
theorem C3_flood_region_witness :
    ∃ r s2, demo1.try_expose_cell 0 0 = some (r, s2) ∧
      (∀ u v : ℕ, u < demo1.config.size.1 → v < demo1.config.size.2 →
        ((getCell s2.field u v).is_exposed = true ↔
          ((getCell demo1.field u v).is_exposed = true ∨
            Reaches demo1 (0, 0) (u, v)))) ∧
      (∀ u v : ℕ,
        (getCell s2.field u v).is_flagged =
          (getCell demo1.field u v).is_flagged ∧
        (getCell s2.field u v).has_gopher =
          (getCell demo1.field u v).has_gopher ∧
        (getCell s2.field u v).surrounding_gophers =
          (getCell demo1.field u v).surrounding_gophers) :=
  C3_flood_region (by decide) (by decide) (by decide) (by decide)
    (by decide) (by decide) (by decide)

/-- Claim C4: the three early returns of try_expose_cell fire in priority
order (already exposed, then flagged, then gopher) and each returns the
whole state unchanged; in particular the gopher cell is not auto-exposed
on HasGopher. -/
theorem C4_early_returns {s : GopherSweeper} {x y : ℕ} {cell : Cell}
    (hcell : getCell? s.field x y = some cell) :
    (cell.is_exposed = true →
      s.try_expose_cell x y = some (ExposeResult.WasAlreadyExposed, s)) ∧
    (cell.is_exposed = false → cell.is_flagged = true →
      s.try_expose_cell x y = some (ExposeResult.IsFlagged, s)) ∧
    (cell.is_exposed = false → cell.is_flagged = false →
      cell.has_gopher = true →
      s.try_expose_cell x y = some (ExposeResult.HasGopher, s)) := by
  refine ⟨fun h1 => ?_, fun h1 h2 => ?_, fun h1 h2 h3 => ?_⟩
  · simp [GopherSweeper.try_expose_cell, hcell, h1]
  · simp [GopherSweeper.try_expose_cell, hcell, h1, h2]
  · simp [GopherSweeper.try_expose_cell, hcell, h1, h2, h3]

/-- Concrete run of C4_early_returns at the flagged cell (2, 0) of demo1:
the IsFlagged branch applies. -/
theorem C4_early_returns_witness :
    ((⟨false, true, false, 0⟩ : Cell).is_exposed = true →
      demo1.try_expose_cell 2 0 =
        some (ExposeResult.WasAlreadyExposed, demo1)) ∧
    ((⟨false, true, false, 0⟩ : Cell).is_exposed = false →
      (⟨false, true, false, 0⟩ : Cell).is_flagged = true →
      demo1.try_expose_cell 2 0 = some (ExposeResult.IsFlagged, demo1)) ∧
    ((⟨false, true, false, 0⟩ : Cell).is_exposed = false →
      (⟨false, true, false, 0⟩ : Cell).is_flagged = false →
      (⟨false, true, false, 0⟩ : Cell).has_gopher = true →
      demo1.try_expose_cell 2 0 = some (ExposeResult.HasGopher, demo1)) :=
  C4_early_returns (by decide)

/-- Claim C5: under the game invariant a try_expose_cell call returns Win
exactly when it takes remaining_cells from nonzero to zero, so over any
sequence of calls only the exposure reaching zero wins; remaining_cells
never grows, and a call that passes the three checks returns Win when
remaining_cells is zero afterwards and Exposed otherwise. -/
theorem C5_win_unique {s : GopherSweeper} {x y : ℕ} {r : ExposeResult}
    {s2 : GopherSweeper} (hinv : GameInv s)
    (ht : s.try_expose_cell x y = some (r, s2)) :
    (r = ExposeResult.Win ↔
      s.remaining_cells ≠ 0 ∧ s2.remaining_cells = 0) ∧
    s2.remaining_cells ≤ s.remaining_cells ∧
    (∀ cell, getCell? s.field x y = some cell → cell.is_exposed = false →
      cell.is_flagged = false → cell.has_gopher = false →
      ((s2.remaining_cells = 0 → r = ExposeResult.Win) ∧
       (s2.remaining_cells ≠ 0 → r = ExposeResult.Exposed))) := by
  obtain ⟨hwf, hcc, hrem, hfc⟩ := hinv
  obtain ⟨cell, hcell, hcase⟩ := try_expose_inv ht
  have hbounds : x < s.config.size.1 ∧ y < s.config.size.2 := by
    rw [← getCell?_isSome_iff hwf x y, hcell]; rfl
  have hthird : ∀ c2 : Cell, getCell? s.field x y = some c2 →
      c2.is_exposed = false → c2.is_flagged = false → c2.has_gopher = false →
      ((s2.remaining_cells = 0 → r = ExposeResult.Win) ∧
       (s2.remaining_cells ≠ 0 → r = ExposeResult.Exposed)) := by
    intro c2 hc2 h1 h2 h3
    simp only [GopherSweeper.try_expose_cell, hc2, h1, h2, h3,
      Bool.false_eq_true, if_false] at ht
    cases hrec2 : expose_recursively (s.config.size.1 * s.config.size.2)
        s x y with
    | none =>
      simp only [hrec2] at ht
      exact Option.noConfusion ht
    | some s3 =>
      simp only [hrec2] at ht
      by_cases hz0 : s3.remaining_cells = 0
      · rw [if_pos hz0] at ht
        injection ht with hh
        injection hh with hr hs
        subst hs
        exact ⟨fun _ => hr.symm, fun hne => absurd hz0 hne⟩
      · rw [if_neg hz0] at ht
        injection ht with hh
        injection hh with hr hs
        subst hs
        exact ⟨fun h0 => absurd h0 hz0, fun _ => hr.symm⟩
  rcases hcase with ⟨hs, hr3⟩ | ⟨h1, h2, h3, hrec, hrr⟩
  · subst hs
    refine ⟨?_, Nat.le_refl _, hthird⟩
    constructor
    · intro hwin
      exfalso
      rcases hr3 with h | h | h <;> rw [hwin] at h <;>
        exact ExposeResult.noConfusion h
    · intro hc
      exact absurd hc.2 hc.1
  · have hget : getCell s.field x y = cell := getCell_of_getCell? hcell
    have hfr := exposeRec_frame _ s x y s2 hrec
    have hrem2 : s.remaining_cells = countSafeUnexposed s := hrem
    have hpos : 0 < s.remaining_cells := by
      rw [hrem2]
      exact countP2_pos hwf hbounds.1 hbounds.2
        (by simp [cellSafeUnexposed, hget, h1, h3])
    refine ⟨?_, hfr.2.2.1, hthird⟩
    rw [hrr]
    by_cases hz0 : s2.remaining_cells = 0
    · rw [if_pos hz0]
      exact iff_of_true rfl ⟨Nat.pos_iff_ne_zero.mp hpos, hz0⟩
    · rw [if_neg hz0]
      exact iff_of_false (fun hh => ExposeResult.noConfusion hh)
        (fun hh => hz0 hh.2)

/-- Concrete run of C5_win_unique: the winning exposure of the demo game. -/
theorem C5_win_unique_witness :
    ((ExposeResult.Win : ExposeResult) = ExposeResult.Win ↔
      demo1.remaining_cells ≠ 0 ∧ demo2.remaining_cells = 0) ∧
    demo2.remaining_cells ≤ demo1.remaining_cells ∧
    (∀ cell, getCell? demo1.field 0 0 = some cell →
      cell.is_exposed = false → cell.is_flagged = false →
      cell.has_gopher = false →
      ((demo2.remaining_cells = 0 →
        (ExposeResult.Win : ExposeResult) = ExposeResult.Win) ∧
       (demo2.remaining_cells ≠ 0 →
        (ExposeResult.Win : ExposeResult) = ExposeResult.Exposed))) :=
  C5_win_unique (by decide) (by decide)

/-- Claim C6: any terminating construction run plants exactly gophers()
gophers (each in its own cell of the matrix) and stores in every in-bounds
cell the number of its grid-bounded 8-neighbours holding a gopher. -/
theorem C6_construction_counts {config : GameConfig} {draws : List (ℕ × ℕ)}
    {s0 : GopherSweeper}
    (hdr : ∀ d ∈ draws, d.1 < config.size.1 ∧ d.2 < config.size.2)
    (hnew : GopherSweeper.new config draws = some s0) :
    gopherCount s0 = config.gophers ∧
    ∀ x, x < config.size.1 → ∀ y, y < config.size.2 →
      (getCell s0.field x y).surrounding_gophers =
        specNeighborGophers s0 x y := by
  obtain ⟨hinv, hgc, hcfg, _⟩ := new_GameInv hdr hnew
  refine ⟨hgc, fun x hx y hy => ?_⟩
  exact hinv.2.1 x (by rw [hcfg]; exact hx) y (by rw [hcfg]; exact hy)

set_option maxRecDepth 8192 in
/-- Concrete run of C6_construction_counts: one gopher planted at (1, 0)
of a 2 by 1 field. -/
theorem C6_construction_counts_witness :
    gopherCount demoHalf = cfgHalf.gophers ∧
    ∀ x, x < cfgHalf.size.1 → ∀ y, y < cfgHalf.size.2 →
      (getCell demoHalf.field x y).surrounding_gophers =
        specNeighborGophers demoHalf x y :=
  @C6_construction_counts cfgHalf [(1, 0)] demoHalf (by decide) (by decide)

/-- Claim C7: at in-bounds coordinates toggle_flag returns CellWasExposed
with the state untouched on an exposed cell; on an unexposed cell it flips
exactly that flag bit (Disabled when the flag was set, Enabled when not),
keeps remaining_cells and every other cell, and a second toggle returns
the opposite result and restores the original state exactly, so an
unflagged unexposed cell yields Enabled then Disabled. -/
theorem C7_toggle_roundtrip {s : GopherSweeper} {x y : ℕ}
    (hwf : Wellformed s) (hx : x < s.config.size.1)
    (hy : y < s.config.size.2) :
    ((getCell s.field x y).is_exposed = true →
      s.toggle_flag x y = some (ToggleFlagResult.CellWasExposed, s)) ∧
    ((getCell s.field x y).is_exposed = false →
      ∃ s1, s.toggle_flag x y =
        some (if (getCell s.field x y).is_flagged then
          ToggleFlagResult.Disabled else ToggleFlagResult.Enabled, s1) ∧
      s1.remaining_cells = s.remaining_cells ∧
      getCell s1.field x y =
        { getCell s.field x y with
          is_flagged := !(getCell s.field x y).is_flagged } ∧
      (∀ u v : ℕ, ¬(u = x ∧ v = y) →
        getCell s1.field u v = getCell s.field u v) ∧
      s1.toggle_flag x y =
        some (if (getCell s.field x y).is_flagged then
          ToggleFlagResult.Enabled else ToggleFlagResult.Disabled, s)) := by
  have hsome := getCell?_eq_some_of_lt hwf hx hy
  constructor
  · intro hexp
    simp [GopherSweeper.toggle_flag, hsome, hexp]
  · intro hexp
    have hget1 : getCell (toggledState s x y).field x y =
        toggledCell (getCell s.field x y) :=
      getCell_setCell_self hwf hx hy _
    have hwf1 : Wellformed (toggledState s x y) :=
      fieldWF_setCell hwf x y _
    have hexp1 : (getCell (toggledState s x y).field x y).is_exposed =
        false := by
      rw [hget1]; exact hexp
    have ht2 := toggle_flag_unexposed hwf1 hx hy hexp1
    rw [hget1, toggledState_toggledState hwf hx hy] at ht2
    refine ⟨toggledState s x y, toggle_flag_unexposed hwf hx hy hexp, rfl,
      getCell_setCell_self hwf hx hy _,
      fun u v huv => getCell_setCell_ne _ huv, ?_⟩
    cases hfl : (getCell s.field x y).is_flagged with
    | false => simpa [toggledCell, hfl] using ht2
    | true => simpa [toggledCell, hfl] using ht2

/-- Concrete run of C7_toggle_roundtrip at the unexposed unflagged cell
(2, 0) of the fresh demo state. -/
theorem C7_toggle_roundtrip_witness :
    ((getCell demo0.field 2 0).is_exposed = true →
      demo0.toggle_flag 2 0 = some (ToggleFlagResult.CellWasExposed, demo0)) ∧
    ((getCell demo0.field 2 0).is_exposed = false →
      ∃ s1, demo0.toggle_flag 2 0 =
        some (if (getCell demo0.field 2 0).is_flagged then
          ToggleFlagResult.Disabled else ToggleFlagResult.Enabled, s1) ∧
      s1.remaining_cells = demo0.remaining_cells ∧
      getCell s1.field 2 0 =
        { getCell demo0.field 2 0 with
          is_flagged := !(getCell demo0.field 2 0).is_flagged } ∧
      (∀ u v : ℕ, ¬(u = 2 ∧ v = 0) →
        getCell s1.field u v = getCell demo0.field u v) ∧
      s1.toggle_flag 2 0 =
        some (if (getCell demo0.field 2 0).is_flagged then
          ToggleFlagResult.Enabled else ToggleFlagResult.Disabled, demo0)) :=
  C7_toggle_roundtrip (by decide) (by decide) (by decide)

/-- Claim C8: the recursive flood fill terminates, with the recursion
bounded by the cell count: any fuel of at least width * height calls
yields a result, because every recursive call is made on an unexposed cell
and immediately exposes it. -/
theorem C8_flood_terminates {s : GopherSweeper} {x y : ℕ}
    (hwf : Wellformed s) (hx : x < s.config.size.1)
    (hy : y < s.config.size.2)
    (hexp : (getCell s.field x y).is_exposed = false) {fuel : ℕ}
    (hfuel : s.config.size.1 * s.config.size.2 ≤ fuel) :
    ∃ s2, expose_recursively fuel s x y = some s2 := by
  obtain ⟨s2, hrec, _⟩ := exposeRec_total fuel s x y hwf hx hy hexp
    (le_trans (countP2_le hwf _) hfuel)
  exact ⟨s2, hrec⟩

/-- Concrete run of C8_flood_terminates: fuel 3 on the 3-cell demo state. -/
theorem C8_flood_terminates_witness :
    ∃ s2, expose_recursively 3 demo1 0 0 = some s2 :=
  C8_flood_terminates (by decide) (by decide) (by decide) (by decide)
    (by decide)

/-- Claim C9: cell, toggle_flag and try_expose_cell index field[y][x]
without a prior bounds check: in a well-formed state each of the three
succeeds exactly at coordinates with x below the width and y below the
height, and fails (the modelled panic, none) at every other coordinate. -/
theorem C9_unchecked_indexing {s : GopherSweeper} (hwf : Wellformed s)
    (x y : ℕ) :
    ((s.cell x y).isSome = true ↔
      x < s.config.size.1 ∧ y < s.config.size.2) ∧
    ((s.toggle_flag x y).isSome = true ↔
      x < s.config.size.1 ∧ y < s.config.size.2) ∧
    ((s.try_expose_cell x y).isSome = true ↔
      x < s.config.size.1 ∧ y < s.config.size.2) := by
  have hiff := getCell?_isSome_iff hwf x y
  refine ⟨hiff, ?_, ?_⟩
  · constructor
    · intro hs
      rw [← hiff]
      cases hc : getCell? s.field x y with
      | none => simp [GopherSweeper.toggle_flag, hc] at hs
      | some c => rfl
    · intro hb
      have hsome := getCell?_eq_some_of_lt hwf hb.1 hb.2
      by_cases hexp : (getCell s.field x y).is_exposed = true
      · simp [GopherSweeper.toggle_flag, hsome, hexp]
      · simp [GopherSweeper.toggle_flag, hsome, hexp]
  · constructor
    · intro hs
      rw [← hiff]
      cases hc : getCell? s.field x y with
      | none => simp [GopherSweeper.try_expose_cell, hc] at hs
      | some c => rfl
    · intro hb
      have hsome := getCell?_eq_some_of_lt hwf hb.1 hb.2
      by_cases hexp : (getCell s.field x y).is_exposed = true
      · simp [GopherSweeper.try_expose_cell, hsome, hexp]
      · by_cases hfl : (getCell s.field x y).is_flagged = true
        · simp [GopherSweeper.try_expose_cell, hsome, hexp, hfl]
        · by_cases hg : (getCell s.field x y).has_gopher = true
          · simp [GopherSweeper.try_expose_cell, hsome, hexp, hfl, hg]
          · obtain ⟨s2, hrec, _⟩ := exposeRec_total
              (s.config.size.1 * s.config.size.2) s x y hwf hb.1 hb.2
              (Bool.eq_false_iff.mpr hexp) (countP2_le hwf _)
            by_cases hz0 : s2.remaining_cells = 0 <;>
              simp [GopherSweeper.try_expose_cell, hsome, hexp, hfl, hg,
                hrec, hz0]

/-- Concrete run of C9_unchecked_indexing at the out-of-range coordinate
(3, 0) of the 3 by 1 demo state: all three operations fail there. -/
theorem C9_unchecked_indexing_witness :
    ((demo0.cell 3 0).isSome = true ↔
      3 < demo0.config.size.1 ∧ 0 < demo0.config.size.2) ∧
    ((demo0.toggle_flag 3 0).isSome = true ↔
      3 < demo0.config.size.1 ∧ 0 < demo0.config.size.2) ∧
    ((demo0.try_expose_cell 3 0).isSome = true ↔
      3 < demo0.config.size.1 ∧ 0 < demo0.config.size.2) :=
  C9_unchecked_indexing (by decide) 3 0

set_option maxRecDepth 8192 in
/-- Claim C10: a state with a cell both exposed and flagged is reachable
from a constructed game (flag (2, 0), then expose (0, 0): the flood fill
exposes the flagged cell without clearing its flag), and the combination
is permanent: across any further sequence of operations the cell stays
exposed and flagged, since toggle_flag answers CellWasExposed without
mutating and exposure never retracts. -/
theorem C10_exposed_flagged :
    (GopherSweeper.new demoConfig [] = some demo0 ∧
      Relation.ReflTransGen GameStep demo0 demo2 ∧
      (getCell demo2.field 2 0).is_exposed = true ∧
      (getCell demo2.field 2 0).is_flagged = true) ∧
    (∀ s s2 : GopherSweeper, ∀ x y : ℕ,
      (getCell s.field x y).is_exposed = true →
      (getCell s.field x y).is_flagged = true →
      Relation.ReflTransGen GameStep s s2 →
      (getCell s2.field x y).is_exposed = true ∧
      (getCell s2.field x y).is_flagged = true) := by
  constructor
  · refine ⟨by decide, ?_, by decide, by decide⟩
    have h1 : GameStep demo0 demo1 :=
      GameStep.flag demo0 2 0 ToggleFlagResult.Enabled demo1 (by decide)
    have h2 : GameStep demo1 demo2 :=
      GameStep.expose demo1 0 0 ExposeResult.Win demo2 (by decide)
    exact Relation.ReflTransGen.tail
      (Relation.ReflTransGen.tail Relation.ReflTransGen.refl h1) h2
  · intro s s2 x y hexp hfl hreach
    induction hreach with
    | refl => exact ⟨hexp, hfl⟩
    | tail hab hbc ih => exact step_keeps_cell hbc ih.1 ih.2
